import Mathlib

/-!
# osde2e: conformance job manifest, S3 helpers and AWS session cache

A shallow embedding of the parts of `pkg/e2e/openshift/conformance.go`,
`pkg/common/aws/s3.go` and `pkg/common/aws/session.go` that the specification
talks about, followed by the theorems that settle each specification claim.

Conventions of the embedding:

* In the manifest builder Go strings are only concatenated and compared, so
  they are Lean `String`s.
* In package `aws` the standard library function `url.Parse` inspects and
  decodes single bytes, so there a Go string is the list of its bytes
  (`GoString`); `bytes` turns a Lean string literal into its UTF-8 bytes.
* Calls into external services (S3, the AWS configuration loader) are answered
  by an environment record; every call made is appended to a trace.
-/

set_option linter.unusedVariables false

/-! ## Part 1: the Kubernetes objects built by `getTestJob` -/

namespace metav1

/-- The two fields of `metav1.ObjectMeta` that `getTestJob` sets. -/
structure ObjectMeta where
  Name : String
  Namespace : String
  deriving DecidableEq, Repr

end metav1

namespace corev1

/-- Go `corev1.VolumeMount` (fields set by the source). -/
structure VolumeMount where
  Name : String
  MountPath : String
  deriving DecidableEq, Repr

/-- Go `corev1.Container` (fields set by the source). -/
structure Container where
  Name : String
  Image : String
  Command : List String
  VolumeMounts : List VolumeMount
  deriving DecidableEq, Repr

/-- Go `corev1.EmptyDirVolumeSource{}`: built with no field set. -/
structure EmptyDirVolumeSource where
  deriving DecidableEq, Repr

/-- Go `corev1.LocalObjectReference`. -/
structure LocalObjectReference where
  Name : String
  deriving DecidableEq, Repr

/-- Go `corev1.ConfigMapVolumeSource`; `DefaultMode` is a `*int32`. -/
structure ConfigMapVolumeSource where
  LocalObjectReference : LocalObjectReference
  DefaultMode : Option Int
  deriving DecidableEq, Repr

/-- Go `corev1.VolumeSource`: each member is a pointer, `none` is `nil`. -/
structure VolumeSource where
  EmptyDir : Option EmptyDirVolumeSource := none
  ConfigMap : Option ConfigMapVolumeSource := none
  deriving DecidableEq, Repr

/-- Go `corev1.Volume`. -/
structure Volume where
  Name : String
  VolumeSource : VolumeSource
  deriving DecidableEq, Repr

/-- Go `type RestartPolicy string`. -/
abbrev RestartPolicy := String

/-- Go `corev1.RestartPolicyNever`. -/
def RestartPolicyNever : RestartPolicy := "Never"

/-- Go `corev1.PodSpec` (fields set by the source); `ActiveDeadlineSeconds` is a `*int64`. -/
structure PodSpec where
  ActiveDeadlineSeconds : Option Int
  Containers : List Container
  Volumes : List Volume
  RestartPolicy : RestartPolicy
  ServiceAccountName : String
  deriving DecidableEq, Repr

/-- Go `corev1.PodTemplateSpec`. -/
structure PodTemplateSpec where
  Spec : PodSpec
  deriving DecidableEq, Repr

end corev1

namespace batchv1

/-- Go `batchv1.JobSpec`. -/
structure JobSpec where
  Template : corev1.PodTemplateSpec
  deriving DecidableEq, Repr

/-- Go `batchv1.Job`. -/
structure Job where
  ObjectMeta : metav1.ObjectMeta
  Spec : JobSpec
  deriving DecidableEq, Repr

end batchv1

namespace runner

/-- The one field of `runner.DefaultRunner` the conformance code reads. The
package `pkg/common/runner` is not part of the sources at hand, so the value
is a parameter of everything that uses it. -/
structure Runner where
  OutputDir : String
  deriving DecidableEq, Repr

end runner

namespace pointer

/-- Go `pointer.Int32(i)`: a pointer to a fresh `int32` holding `i`. -/
def Int32 (i : Int) : Option Int := some i

end pointer

/-- Go conversion `int64(x)` of an integer: two's complement wrap to 64 bits. -/
def int64 (x : Int) : Int := (x + 2 ^ 63) % 2 ^ 64 - 2 ^ 63

namespace openshift

/-- `getTestJob` of `conformance.go`. The Go parameter `namespace` is called
`ns` here; `DefaultRunner` stands for the package variable `runner.DefaultRunner`. -/
def getTestJob (DefaultRunner : runner.Runner) (ns : String) (timeout : Int) (image : String)
    (suffix : String) (podname : String) (saname : String) : batchv1.Job :=
  let to_ := int64 timeout
  { ObjectMeta := { Name := podname, Namespace := ns }
    Spec :=
      { Template :=
          { Spec :=
              { ActiveDeadlineSeconds := some to_
                Containers :=
                  [ { Name := "test-harness"
                      Image := image
                      Command := ["/bin/sh", "/test-cmd/test-cmd.sh"]
                      VolumeMounts :=
                        [ { Name := "test-output", MountPath := DefaultRunner.OutputDir },
                          { Name := "test-cmd", MountPath := "/test-cmd" } ] },
                    { Name := "push-results"
                      Image := image
                      Command := ["/bin/sh", "/push-results/push-results.sh"]
                      VolumeMounts :=
                        [ { Name := "test-output", MountPath := DefaultRunner.OutputDir },
                          { Name := "push-results", MountPath := "/push-results" } ] } ]
                Volumes :=
                  [ { Name := "test-output"
                      VolumeSource := { EmptyDir := some {} } },
                    { Name := "push-results"
                      VolumeSource :=
                        { ConfigMap := some
                            { LocalObjectReference := { Name := "push-results-" ++ suffix }
                              DefaultMode := pointer.Int32 0o755 } } },
                    { Name := "test-cmd"
                      VolumeSource :=
                        { ConfigMap := some
                            { LocalObjectReference := { Name := "test-cmd-" ++ suffix }
                              DefaultMode := pointer.Int32 0o755 } } } ]
                RestartPolicy := corev1.RestartPolicyNever
                ServiceAccountName := saname } } } }

/-- The pod specification inside a job. -/
def podSpec (job : batchv1.Job) : corev1.PodSpec := job.Spec.Template.Spec

/-- The mounts of container `c` that carry the volume called `name`. -/
def mountsOf (c : corev1.Container) (name : String) : List corev1.VolumeMount :=
  c.VolumeMounts.filter (fun m => m.Name == name)

/-- The config-map backed volumes of a pod, as (volume name, config map name, default mode). -/
def configMapVolumes (spec : corev1.PodSpec) : List (String × String × Option Int) :=
  spec.Volumes.filterMap fun v =>
    match v.VolumeSource.ConfigMap with
    | some cm => some (v.Name, cm.LocalObjectReference.Name, cm.DefaultMode)
    | none => none

/-- The names of all volume mounts of all containers of a pod. -/
def mountedNames (spec : corev1.PodSpec) : List String :=
  spec.Containers.flatMap fun c => c.VolumeMounts.map (·.Name)

end openshift

/-! ## Part 2: Go strings as byte lists, and the standard library's `url.Parse` -/

/-- A Go string: the list of its bytes (each below 256). -/
abbrev GoString := List Nat

/-- The bytes (UTF-8) of a string literal. -/
def bytes (s : String) : GoString :=
  (s.data.flatMap String.utf8EncodeChar).map UInt8.toNat

namespace strings

/-- Go `strings.Trim(s, cutset)` for a cutset of ASCII bytes: `s` without its
leading and trailing bytes that occur in `cutset`. -/
def Trim (s cutset : GoString) : GoString :=
  ((s.dropWhile (fun c => decide (c ∈ cutset))).reverse.dropWhile
    (fun c => decide (c ∈ cutset))).reverse

/-- Go `strings.Join(elems, sep)`. -/
def Join : List GoString → GoString → GoString
  | [], _ => []
  | [a], _ => a
  | a :: b :: r, sep => a ++ sep ++ Join (b :: r) sep

/-- Go `strings.HasPrefix(s, p)`. -/
def HasPrefix (s p : GoString) : Bool := p.isPrefixOf s

/-- Go `strings.HasSuffix(s, p)`. -/
def HasSuffix (s p : GoString) : Bool := p.isSuffixOf s

/-- Go `strings.Index(s, substr)`: the index of the first occurrence of
`substr` in `s`, or -1. -/
def Index : GoString → GoString → Int
  | [], substr => if substr = [] then 0 else -1
  | c :: t, substr =>
    if substr.isPrefixOf (c :: t) then 0
    else
      let i := Index t substr
      if i < 0 then -1 else i + 1

/-- Go `strings.LastIndex(s, substr)`: the index of the last occurrence of
`substr` in `s`, or -1. -/
def LastIndex : GoString → GoString → Int
  | [], substr => if substr = [] then 0 else -1
  | c :: t, substr =>
    let i := LastIndex t substr
    if 0 ≤ i then i + 1
    else if substr.isPrefixOf (c :: t) then 0 else -1

/-- Go `strings.Contains(s, substr)`. -/
def Contains (s substr : GoString) : Bool := decide (0 ≤ Index s substr)

/-- Go `strings.Cut(s, sep)`: `(before, after, found)`. -/
def Cut (s sep : GoString) : GoString × GoString × Bool :=
  let i := Index s sep
  if 0 ≤ i then (s.take i.toNat, s.drop (i.toNat + sep.length), true)
  else (s, [], false)

/-- Go `strings.Count(s, substr)` for a `substr` of the single byte `c`. -/
def Count (s : GoString) (c : Nat) : Nat := s.count c

/-- Go `strings.ToLower(s)` on its ASCII bytes; bytes from 0x80 on are kept
(`url.Parse` lower-cases schemes only, which are ASCII). -/
def ToLower (s : GoString) : GoString :=
  s.map fun c => if 'A'.toNat ≤ c ∧ c ≤ 'Z'.toNat then c + ('a'.toNat - 'A'.toNat) else c

end strings

namespace url

/-- Go `url.encoding`: the part of a URL a string is escaped or unescaped for. -/
inductive encoding where
  | encodePath
  | encodePathSegment
  | encodeHost
  | encodeZone
  | encodeUserPassword
  | encodeQueryComponent
  | encodeFragment
  deriving DecidableEq, Repr

/-- The errors `url.Parse` can return: Go `url.EscapeError`,
`url.InvalidHostError`, an `errors.New` message, and `*url.Error` wrapping one
of these with the operation and the URL. -/
inductive Error where
  | EscapeError (s : GoString)
  | InvalidHostError (s : GoString)
  | New (msg : String)
  | invalidPort (colonPort : GoString)
  | Wrapped (op : String) (url : GoString) (err : Error)
  deriving DecidableEq, Repr

/-- Go `url.Userinfo`. -/
structure Userinfo where
  username : GoString
  password : GoString
  passwordSet : Bool
  deriving DecidableEq, Repr

/-- Go `url.URL`, without the hints `RawPath` and `RawFragment`, which are
derived from `Path` and `Fragment` and are not read by this repository. -/
structure URL where
  Scheme : GoString := []
  Opaque : GoString := []
  User : Option Userinfo := none
  Host : GoString := []
  Path : GoString := []
  OmitHost : Bool := false
  ForceQuery : Bool := false
  RawQuery : GoString := []
  Fragment : GoString := []
  deriving DecidableEq, Repr

/-- ASCII letter test used throughout `net/url`. -/
def isAlpha (c : Nat) : Bool :=
  ('a'.toNat ≤ c && c ≤ 'z'.toNat) || ('A'.toNat ≤ c && c ≤ 'Z'.toNat)

/-- ASCII digit test used throughout `net/url`. -/
def isDigit (c : Nat) : Bool := '0'.toNat ≤ c && c ≤ '9'.toNat

/-- Go `ishex`. -/
def ishex (c : Nat) : Bool :=
  ('0'.toNat ≤ c && c ≤ '9'.toNat) || ('a'.toNat ≤ c && c ≤ 'f'.toNat)
    || ('A'.toNat ≤ c && c ≤ 'F'.toNat)

/-- Go `unhex`. -/
def unhex (c : Nat) : Nat :=
  if '0'.toNat ≤ c ∧ c ≤ '9'.toNat then c - '0'.toNat
  else if 'a'.toNat ≤ c ∧ c ≤ 'f'.toNat then c - 'a'.toNat + 10
  else if 'A'.toNat ≤ c ∧ c ≤ 'F'.toNat then c - 'A'.toNat + 10
  else 0

/-- Go `shouldEscape(c, mode)`. -/
def shouldEscape (c : Nat) (mode : encoding) : Bool :=
  if isAlpha c || isDigit c then false
  else if (mode = .encodeHost ∨ mode = .encodeZone) ∧
      c ∈ bytes "!$&'()*+,;=:[]<>\"" then false
  else if c ∈ bytes "-_.~" then false
  else if c ∈ bytes "$&+,/:;=?@" then
    match mode with
    | .encodePath => c == '?'.toNat
    | .encodePathSegment =>
      c == '/'.toNat || c == ';'.toNat || c == ','.toNat || c == '?'.toNat
    | .encodeUserPassword =>
      c == '@'.toNat || c == '/'.toNat || c == '?'.toNat || c == ':'.toNat
    | .encodeQueryComponent => true
    | .encodeFragment => false
    | _ => true
  else if mode = .encodeFragment ∧ c ∈ bytes "!()*" then false
  else true

/-- First loop of Go `unescape`: checks that every `%` starts a well-formed
escape which the mode allows, and returns the number `n` of escapes and `hasPlus`. -/
def unescapeCheck (mode : encoding) : GoString → Nat → Bool → Except Error (Nat × Bool)
  | [], n, hasPlus => .ok (n, hasPlus)
  | c :: t, n, hasPlus =>
    if c = '%'.toNat then
      match t with
      | a :: b :: t2 =>
        if !ishex a || !ishex b then .error (.EscapeError ((c :: t).take 3))
        else if mode = .encodeHost ∧ unhex a < 8 ∧ [c, a, b] ≠ bytes "%25" then
          .error (.EscapeError [c, a, b])
        else if mode = .encodeZone ∧ [c, a, b] ≠ bytes "%25"
            ∧ unhex a * 16 + unhex b ≠ ' '.toNat
            ∧ shouldEscape (unhex a * 16 + unhex b) .encodeHost then
          .error (.EscapeError [c, a, b])
        else unescapeCheck mode t2 (n + 1) hasPlus
      | _ => .error (.EscapeError ((c :: t).take 3))
    else if c = '+'.toNat then
      unescapeCheck mode t n (decide (mode = .encodeQueryComponent))
    else if (mode = .encodeHost ∨ mode = .encodeZone) ∧ c < 0x80 ∧ shouldEscape c .encodeHost then
      .error (.InvalidHostError [c])
    else unescapeCheck mode t n hasPlus

/-- Second loop of Go `unescape`: replaces every escape by the byte it stands
for (and `+` by a space in a query component). -/
def unescapeBuild (mode : encoding) : GoString → GoString
  | [] => []
  | c :: t =>
    if c = '%'.toNat then
      match t with
      | a :: b :: t2 => (unhex a * 16 + unhex b) :: unescapeBuild mode t2
      | _ => [c]
    else if c = '+'.toNat then
      (if mode = .encodeQueryComponent then ' '.toNat else '+'.toNat) :: unescapeBuild mode t
    else c :: unescapeBuild mode t

/-- Go `unescape(s, mode)`. -/
def unescape (s : GoString) (mode : encoding) : Except Error GoString :=
  match unescapeCheck mode s 0 false with
  | .error e => .error e
  | .ok (n, hasPlus) =>
    if n = 0 ∧ hasPlus = false then .ok s else .ok (unescapeBuild mode s)

/-- Go `stringContainsCTLByte`. -/
def stringContainsCTLByte (s : GoString) : Bool :=
  s.any fun b => decide (b < ' '.toNat) || b == 0x7f

/-- Loop of Go `getScheme`, at index `i` with `rest` the bytes from `i` on. -/
def getSchemeLoop (rawURL : GoString) : GoString → Nat → GoString × GoString × Option Error
  | [], _ => ([], rawURL, none)
  | c :: t, i =>
    if isAlpha c then getSchemeLoop rawURL t (i + 1)
    else if isDigit c || c == '+'.toNat || c == '-'.toNat || c == '.'.toNat then
      if i = 0 then ([], rawURL, none) else getSchemeLoop rawURL t (i + 1)
    else if c = ':'.toNat then
      if i = 0 then ([], [], some (.New "missing protocol scheme"))
      else (rawURL.take i, rawURL.drop (i + 1), none)
    else ([], rawURL, none)

/-- Go `getScheme(rawURL)`: `(scheme, path, err)`. -/
def getScheme (rawURL : GoString) : GoString × GoString × Option Error :=
  getSchemeLoop rawURL rawURL 0

/-- Go `validOptionalPort`. -/
def validOptionalPort (port : GoString) : Bool :=
  match port with
  | [] => true
  | c :: t => c == ':'.toNat && t.all fun b => !(decide (b < '0'.toNat) || decide (b > '9'.toNat))

/-- Go `validUserinfo`. -/
def validUserinfo (s : GoString) : Bool :=
  s.all fun r => isAlpha r || isDigit r || decide (r ∈ bytes "-._:~!$&'()*+,;=%@")

/-- Go `parseHost`. -/
def parseHost (host : GoString) : Except Error GoString :=
  let general : Except Error GoString := unescape host .encodeHost
  if strings.HasPrefix host (bytes "[") then
    let i := strings.LastIndex host (bytes "]")
    if i < 0 then .error (.New "missing ']' in host")
    else
      let colonPort := host.drop (i.toNat + 1)
      if !validOptionalPort colonPort then .error (.invalidPort colonPort)
      else
        let zone := strings.Index (host.take i.toNat) (bytes "%25")
        if 0 ≤ zone then
          match unescape (host.take zone.toNat) .encodeHost with
          | .error e => .error e
          | .ok host1 =>
            match unescape ((host.take i.toNat).drop zone.toNat) .encodeZone with
            | .error e => .error e
            | .ok host2 =>
              match unescape (host.drop i.toNat) .encodeHost with
              | .error e => .error e
              | .ok host3 => .ok (host1 ++ host2 ++ host3)
        else general
  else
    let i := strings.LastIndex host (bytes ":")
    if i ≠ -1 ∧ !validOptionalPort (host.drop i.toNat) then
      .error (.invalidPort (host.drop i.toNat))
    else general

/-- Go `parseAuthority`: `(user, host, err)`. -/
def parseAuthority (authority : GoString) : Except Error (Option Userinfo × GoString) :=
  let i := strings.LastIndex authority (bytes "@")
  match (if i < 0 then parseHost authority else parseHost (authority.drop (i.toNat + 1))) with
  | .error e => .error e
  | .ok host =>
    if i < 0 then .ok (none, host)
    else
      let userinfo := authority.take i.toNat
      if !validUserinfo userinfo then .error (.New "net/url: invalid userinfo")
      else if !strings.Contains userinfo (bytes ":") then
        match unescape userinfo .encodeUserPassword with
        | .error e => .error e
        | .ok userinfo => .ok (some ⟨userinfo, [], false⟩, host)
      else
        let (username, password, _) := strings.Cut userinfo (bytes ":")
        match unescape username .encodeUserPassword with
        | .error e => .error e
        | .ok username =>
          match unescape password .encodeUserPassword with
          | .error e => .error e
          | .ok password => .ok (some ⟨username, password, true⟩, host)

/-- Go `(*URL).setPath`. -/
def setPath (u : URL) (p : GoString) : Except Error URL :=
  match unescape p .encodePath with
  | .error e => .error e
  | .ok path => .ok { u with Path := path }

/-- Go `(*URL).setFragment`. -/
def setFragment (u : URL) (f : GoString) : Except Error URL :=
  match unescape f .encodeFragment with
  | .error e => .error e
  | .ok frag => .ok { u with Fragment := frag }

/-- Go `parse(rawURL, viaRequest)`. -/
def parse (rawURL : GoString) (viaRequest : Bool) : Except Error URL :=
  if stringContainsCTLByte rawURL then
    .error (.New "net/url: invalid control character in URL")
  else if rawURL = [] ∧ viaRequest then .error (.New "empty url")
  else if rawURL = bytes "*" then .ok { Path := bytes "*" }
  else
    match getScheme rawURL with
    | (_, _, some err) => .error err
    | (scheme, rest0, none) =>
      let url : URL := { Scheme := strings.ToLower scheme }
      let forceQuery : Bool :=
        strings.HasSuffix rest0 (bytes "?") && strings.Count rest0 '?'.toNat == 1
      let rest : GoString :=
        if forceQuery then rest0.take (rest0.length - 1) else (strings.Cut rest0 (bytes "?")).1
      let url : URL :=
        if forceQuery then { url with ForceQuery := true }
        else { url with RawQuery := (strings.Cut rest0 (bytes "?")).2.1 }
      if !strings.HasPrefix rest (bytes "/") ∧ url.Scheme ≠ [] then
        .ok { url with Opaque := rest }
      else if !strings.HasPrefix rest (bytes "/") ∧ viaRequest then
        .error (.New "invalid URI for request")
      else if !strings.HasPrefix rest (bytes "/")
          ∧ strings.Contains (strings.Cut rest (bytes "/")).1 (bytes ":") then
        .error (.New "first path segment in URL cannot contain colon")
      else if (url.Scheme ≠ [] ∨ (!viaRequest ∧ !strings.HasPrefix rest (bytes "///")))
          ∧ strings.HasPrefix rest (bytes "//") then
        let authority0 := rest.drop 2
        let i := strings.Index authority0 (bytes "/")
        let authority := if 0 ≤ i then authority0.take i.toNat else authority0
        let rest := if 0 ≤ i then authority0.drop i.toNat else []
        match parseAuthority authority with
        | .error err => .error err
        | .ok (user, host) => setPath { url with User := user, Host := host } rest
      else if url.Scheme ≠ [] ∧ strings.HasPrefix rest (bytes "/") then
        setPath { url with OmitHost := true } rest
      else setPath url rest

/-- Go `url.Parse(rawURL)`. -/
def Parse (rawURL : GoString) : Except Error URL :=
  let (u, frag, _) := strings.Cut rawURL (bytes "#")
  match parse u false with
  | .error err => .error (.Wrapped "parse" u err)
  | .ok url =>
    if frag = [] then .ok url
    else
      match setFragment url frag with
      | .error err => .error (.Wrapped "parse" rawURL err)
      | .ok url => .ok url

end url

namespace aws

/-- `CreateS3URL` of `s3.go`; the variadic `keys` is a list. -/
def CreateS3URL (bucket : GoString) (keys : List GoString) : GoString :=
  let strippedBucket := strings.Trim bucket (bytes "/")
  let strippedKeys := keys.map fun key => strings.Trim key (bytes "/")
  let s3JoinArray := [bytes "s3:/", strippedBucket]
  let s3JoinArray := s3JoinArray ++ strippedKeys
  strings.Join s3JoinArray (bytes "/")

/-- `ParseS3URL` of `s3.go`: `(bucket, key, err)`. -/
def ParseS3URL (s3URL : GoString) : GoString × GoString × Option url.Error :=
  match url.Parse s3URL with
  | .error err => ([], [], some err)
  | .ok parsedURL => (parsedURL.Host, parsedURL.Path, none)

end aws

/-! ## Part 3: the cached AWS session (`session.go`) -/

namespace awsconfig

/-- What `awsconfig.LoadDefaultConfig` hands back, as far as this repository
looks at it: the region and the shared-config profile it was loaded for and the
loader's own answer, which is left abstract. -/
structure Config where
  Region : GoString := []
  SharedConfigProfile : GoString := []
  loaded : List Nat := []
  deriving DecidableEq, Repr

end awsconfig

namespace iam

/-- An `iam.Client`: the configuration it was built from. -/
structure Client where
  options : awsconfig.Config
  deriving DecidableEq, Repr

/-- Go `iam.NewFromConfig`. -/
def NewFromConfig (cfg : awsconfig.Config) : Client := ⟨cfg⟩

end iam

namespace s3

/-- An `s3.Client`: the configuration it was built from. -/
structure Client where
  options : awsconfig.Config
  deriving DecidableEq, Repr

/-- Go `s3.NewFromConfig`. -/
def NewFromConfig (cfg : awsconfig.Config) : Client := ⟨cfg⟩

end s3

namespace ec2

/-- An `ec2.Client`: the configuration it was built from. -/
structure Client where
  options : awsconfig.Config
  deriving DecidableEq, Repr

/-- Go `ec2.NewFromConfig`. -/
def NewFromConfig (cfg : awsconfig.Config) : Client := ⟨cfg⟩

end ec2

namespace sync

/-- Go `sync.Once`, sequentially: whether `Do` has already run its function. -/
structure Once where
  done : Bool := false
  deriving DecidableEq, Repr

/-- Go `(*Once).Do(f)` on a state `σ` that `f` updates: `f` runs only when no
earlier `Do` on this `Once` has run. -/
def Once.Do {σ : Type} (o : Once) (f : σ → σ) (st : σ) : Once × σ :=
  if o.done then (o, st) else ({ done := true }, f st)

end sync

namespace aws

/-- An error value of the AWS SDK or of the Go runtime (its message). -/
structure SdkError where
  msg : String
  deriving DecidableEq, Repr

/-- The `error` values that travel through package `aws`. -/
inductive error where
  | Errorf (format : String) (arg : url.Error)
  | sdk (e : SdkError)
  deriving DecidableEq, Repr

/-- What the process environment answers to the session initialiser. The keys
`config.AWSRegion`, `config.AWSProfile` and `config.AWSAccountId` are constants
of package `config`, which is not among the sources at hand, so they are fields. -/
structure SessionEnv where
  AWSRegion : String
  AWSProfile : String
  AWSAccountId : String
  viperGetString : String → GoString
  LoadDefaultConfig : GoString → GoString → awsconfig.Config × Option SdkError

/-- An effect of the initialiser on the outside world. -/
inductive Effect where
  | LoadDefaultConfig (region profile : GoString)
  | logPrintf (format : String) (err : SdkError)
  deriving DecidableEq, Repr

/-- Go `type ccsAwsSession struct`. The clients are pointers, `none` is `nil`. -/
structure ccsAwsSession where
  config : awsconfig.Config := {}
  accountId : GoString := []
  iam : Option iam.Client := none
  s3 : Option s3.Client := none
  ec2 : Option ec2.Client := none
  once : sync.Once := {}
  deriving DecidableEq, Repr

/-- The function literal passed to `once.Do` in `GetAWSSessions`, acting on the
session and on the list of effects performed so far. -/
def GetAWSSessions.body (env : SessionEnv) :
    ccsAwsSession × List Effect → ccsAwsSession × List Effect
  | (s, effects) =>
    let region := env.viperGetString env.AWSRegion
    let profile := env.viperGetString env.AWSProfile
    let (cfg, err) := env.LoadDefaultConfig region profile
    let effects := effects ++ [Effect.LoadDefaultConfig region profile]
    let effects :=
      match err with
      | some e => effects ++ [Effect.logPrintf "error initializing AWS session: %v" e]
      | none => effects
    ({ s with
        config := cfg
        iam := some (iam.NewFromConfig cfg)
        s3 := some (s3.NewFromConfig cfg)
        ec2 := some (ec2.NewFromConfig cfg)
        accountId := env.viperGetString env.AWSAccountId }, effects)

/-- `GetAWSSessions` of `session.go`: the session afterwards, the returned
error (always `nil`) and the effects of this call. -/
def GetAWSSessions (env : SessionEnv) (s : ccsAwsSession) :
    ccsAwsSession × Option error × List Effect :=
  let (once, s1, effects) := s.once.Do (GetAWSSessions.body env) (s, [])
  ({ s1 with once := once }, none, effects)

/-- `GetAccountId` of `session.go`. -/
def GetAccountId (s : ccsAwsSession) : GoString := s.accountId

/-- A sequence of calls of `GetAWSSessions` on one session, the `i`-th call in
the environment `envs[i]`: the session after each call and that call's effects. -/
def callGetAWSSessions : List SessionEnv → ccsAwsSession → List (ccsAwsSession × List Effect)
  | [], _ => []
  | env :: envs, s =>
    let r := GetAWSSessions env s
    (r.1, r.2.2) :: callGetAWSSessions envs r.1

/-- How often a list of effects loads the AWS configuration. -/
def loads (effects : List Effect) : Nat :=
  effects.countP fun e => match e with
    | .LoadDefaultConfig _ _ => true
    | _ => false

/-! ## Part 4: reading from S3 and bucket clean-up (`s3.go`) -/

/-- The body of a `GetObject` result as `io.ReadAll` meets it: the object's
complete content and, when reading breaks, after how many bytes and with
which error. -/
structure Body where
  content : List Nat
  failure : Option (Nat × SdkError) := none
  deriving DecidableEq, Repr

end aws

namespace io

/-- Go `io.ReadAll(r)`: the data read until end of file or the first error,
and that error. -/
def ReadAll (r : aws.Body) : List Nat × Option aws.SdkError :=
  match r.failure with
  | none => (r.content, none)
  | some (n, e) => (r.content.take n, some e)

end io

namespace time

/-- Go `time.Duration`: an `int64` count of nanoseconds. -/
abbrev Duration := Int

/-- Go `time.Time` as nanoseconds on one time line. -/
abbrev Time := Int

/-- Go `(Time).Sub`: the difference, saturated to the range of `Duration`. -/
def Sub (t u : Time) : Duration :=
  if t - u > 2 ^ 63 - 1 then 2 ^ 63 - 1
  else if t - u < -(2 ^ 63) then -(2 ^ 63)
  else t - u

end time

namespace aws

/-- The fields of `types.Bucket` that the clean-up dereferences. -/
structure Bucket where
  Name : GoString
  CreationDate : time.Time
  deriving DecidableEq, Repr

/-- The field of `types.Object` that the clean-up dereferences. -/
structure Object where
  Key : GoString
  deriving DecidableEq, Repr

/-- A call to S3 through `actions.BucketBasics`. -/
inductive Call where
  | GetObject (bucket key : GoString)
  | ListBuckets
  | ListObjects (bucket : GoString)
  | DeleteObjects (bucket : GoString) (keys : List GoString)
  | DeleteBucket (bucket : GoString)
  deriving DecidableEq, Repr

/-- S3 and the clock as the code meets them. Every answer may depend on the
calls made so far; `Now k` is the `k`-th reading of the clock. -/
structure S3Env where
  GetObject : List Call → GoString → GoString → Except SdkError Body
  ListBuckets : List Call → List Bucket × Option SdkError
  ListObjects : List Call → GoString → List Object × Option SdkError
  DeleteObjects : List Call → GoString → List GoString → Option SdkError
  DeleteBucket : List Call → GoString → Option SdkError
  Now : Nat → time.Time

/-- `const velerosubstr` of `s3.go`. -/
def velerosubstr : GoString := bytes "managed-velero"

/-- `ReadFromS3Session` of `s3.go`: the returned bytes (`[]` for `nil`) and error. -/
def ReadFromS3Session (w : S3Env) (inputKey : GoString) : List Nat × Option error :=
  match ParseS3URL inputKey with
  | (_, _, some err) => ([], some (.Errorf "error trying to parse S3 URL: %v" err))
  | (bucket, key, none) =>
    match w.GetObject [] bucket key with
    | .error err => ([], some (.sdk err))
    | .ok result =>
      -- a failure of `io.ReadAll` is only logged: no `return` follows the log line
      let (body, err) := io.ReadAll result
      (body, none)

/-- The state of the loop of `CleanupS3Buckets`: the S3 calls made so far and
the number of clock readings so far. -/
structure CleanupState where
  calls : List Call
  clock : Nat
  deriving DecidableEq, Repr

/-- The loop `for _, bucket := range buckets` of `CleanupS3Buckets`. -/
def CleanupS3Buckets.loop (w : S3Env) (rolesubstr : GoString) (olderthan : time.Duration)
    (dryrun : Bool) : List Bucket → CleanupState → CleanupState
  | [], st => st
  | bucket :: buckets, st =>
    if strings.Contains bucket.Name rolesubstr || strings.Contains bucket.Name velerosubstr then
      -- `time.Since` reads the clock
      let since := time.Sub (w.Now st.clock) bucket.CreationDate
      let st := { st with clock := st.clock + 1 }
      if since > olderthan then
        if !dryrun then
          let (objects, _) := w.ListObjects st.calls bucket.Name
          let st := { st with calls := st.calls ++ [Call.ListObjects bucket.Name] }
          let objKeys := objects.map (·.Key)
          let err := w.DeleteObjects st.calls bucket.Name objKeys
          let st := { st with calls := st.calls ++ [Call.DeleteObjects bucket.Name objKeys] }
          match err with
          | some _ => CleanupS3Buckets.loop w rolesubstr olderthan dryrun buckets st
          | none =>
            let err := w.DeleteBucket st.calls bucket.Name
            let st := { st with calls := st.calls ++ [Call.DeleteBucket bucket.Name] }
            match err with
            | some _ => CleanupS3Buckets.loop w rolesubstr olderthan dryrun buckets st
            | none => CleanupS3Buckets.loop w rolesubstr olderthan dryrun buckets st
        else CleanupS3Buckets.loop w rolesubstr olderthan dryrun buckets st
      else CleanupS3Buckets.loop w rolesubstr olderthan dryrun buckets st
    else CleanupS3Buckets.loop w rolesubstr olderthan dryrun buckets st

/-- `CleanupS3Buckets` of `s3.go`: the session afterwards, the S3 calls made
and the number of clock readings, and the returned error. `rolesubstr` is a
constant of package `aws` declared outside the sources at hand. -/
def CleanupS3Buckets (env : SessionEnv) (w : S3Env) (rolesubstr : GoString)
    (CcsAwsSession : ccsAwsSession) (olderthan : time.Duration) (dryrun : Bool) :
    ccsAwsSession × CleanupState × Option error :=
  match GetAWSSessions env CcsAwsSession with
  | (sess, some err, _) => (sess, ⟨[], 0⟩, some err)
  | (sess, none, _) =>
    match w.ListBuckets [] with
    | (_, some err) => (sess, ⟨[Call.ListBuckets], 0⟩, some (.sdk err))
    | (buckets, none) =>
      (sess, CleanupS3Buckets.loop w rolesubstr olderthan dryrun buckets ⟨[Call.ListBuckets], 0⟩,
        none)

/-- A call that deletes something. -/
def Call.isDelete : Call → Bool
  | .DeleteObjects _ _ => true
  | .DeleteBucket _ => true
  | _ => false

/-- The bucket a call addresses. -/
def Call.bucket : Call → GoString
  | .GetObject b _ => b
  | .ListBuckets => []
  | .ListObjects b => b
  | .DeleteObjects b _ => b
  | .DeleteBucket b => b

end aws

/-! ## Part 5: the push-results script (`getPushCmd`) and its execution by bash -/

namespace openshift

/-- `getPushCmd` of `conformance.go`: the text of the push-results script. -/
def getPushCmd (jobname : String) (outdir : String) : String :=
  "\n#!/usr/bin/env bash\n\nJOB_POD=$(oc get pods -l job-name=" ++ jobname
    ++ " -o=jsonpath='\x7b.items[0].metadata.name\x7d')\n"
    ++ "echo \"Found Job Pod: $JOB_POD\"\n"
    ++ "while ! oc get pod $JOB_POD -o jsonpath="
    ++ "'\x7b.status.containerStatuses[?(@.name==\"test-harness\")].state\x7d'"
    ++ " | grep -q terminated; do sleep 1; done\n"
    ++ "for i in \x7b1..5\x7d; do oc rsync -c push-results " ++ outdir ++ "/. $(hostname):"
    ++ outdir ++ " && break; sleep 10; done"

namespace push

/-- A command the script runs, with the words the script passes to it. -/
inductive Event where
  | ocGetPods (selector : String)
  | echo (line : String)
  | ocGetPodState (pod : String)
  | sleep (seconds : Nat)
  | hostname
  | ocRsync (container src dst : String)
  deriving DecidableEq, Repr

/-- A test double for the commands of the script: what `oc get pods` and
`hostname` print, whether the `k`-th run of the pipeline
`oc get pod ... | grep -q terminated` finds the harness terminated, and the exit
status of the `k`-th `oc rsync` and of the `k`-th `sleep` (counted from 0). -/
structure Env where
  jobPod : String
  hostname : String
  harnessTerminated : Nat → Bool
  rsync : Nat → Nat
  sleep : Nat → Nat

/-- The shell while it runs the script: the commands run so far, the exit
status `$?` of the last one, and how many polls, sleeps and transfer attempts
have been run. -/
structure State where
  events : List Event := []
  status : Nat := 0
  polls : Nat := 0
  sleeps : Nat := 0
  attempts : Nat := 0
  deriving DecidableEq, Repr

/-- Runs `sleep n`. -/
def execSleep (env : Env) (n : Nat) (st : State) : State :=
  { st with
    events := st.events ++ [Event.sleep n]
    status := env.sleep st.sleeps
    sleeps := st.sleeps + 1 }

/-- The line `while ! oc get pod $JOB_POD ... | grep -q terminated; do sleep 1; done`,
with `fuel` bounding the number of polls; `none` when the fuel runs out.
`last` is the exit status of the last command run in the loop body, 0 when
none was run: it is the exit status of the `while` command. -/
def whileNotTerminated (env : Env) (pod : String) : Nat → Nat → State → Option State
  | 0, _, _ => none
  | fuel + 1, last, st =>
    let found := env.harnessTerminated st.polls
    let st := { st with
      events := st.events ++ [Event.ocGetPodState pod]
      status := if found then 1 else 0
      polls := st.polls + 1 }
    if found then some { st with status := last }
    else
      let st := execSleep env 1 st
      whileNotTerminated env pod fuel st.status st

/-- Bash brace expansion of a numeric range `lo..hi` with `lo ≤ hi`. -/
def braceRange (lo hi : Nat) : List Nat := List.range' lo (hi + 1 - lo)

/-- The body of the line
`for i in ...; do oc rsync -c push-results <outdir>/. $(hostname):<outdir> && break; sleep 10; done`
run for each word of the list: `break` leaves the loop with status 0, a failed
`oc rsync` skips `break` and the list goes on with `sleep 10`. The loop ends
with the exit status of the last command it ran. -/
def forTransfer (env : Env) (outdir : String) : List Nat → State → State
  | [], st => st
  | _ :: words, st =>
    let st := { st with events := st.events ++ [Event.hostname], status := 0 }
    let st := { st with
      events := st.events ++
        [Event.ocRsync "push-results" (outdir ++ "/.") (env.hostname ++ ":" ++ outdir)]
      status := env.rsync st.attempts
      attempts := st.attempts + 1 }
    if st.status = 0 then { st with status := 0 }
    else forTransfer env outdir words (execSleep env 10 st)

/-- The script of `getPushCmd jobname outdir` run by bash (as `/bin/sh` of the
test image, with brace expansion) for `jobname` and `outdir` that are single
shell words: the final shell state, whose `status` is the exit status of the
script, or `none` when `fuel` polls did not see the harness terminate. -/
def run (env : Env) (jobname : String) (outdir : String) (fuel : Nat) : Option State :=
  -- JOB_POD=$(oc get pods -l job-name=<jobname> -o=jsonpath=...)
  let st : State := { events := [Event.ocGetPods ("job-name=" ++ jobname)] }
  let JOB_POD := env.jobPod
  -- echo "Found Job Pod: $JOB_POD"
  let st := { st with events := st.events ++ [Event.echo ("Found Job Pod: " ++ JOB_POD)] }
  match whileNotTerminated env JOB_POD fuel 0 st with
  | none => none
  | some st => some (forTransfer env outdir (braceRange 1 5) st)

/-- The transfer attempts among the commands run. -/
def transfers (events : List Event) : List Event :=
  events.filter fun e => match e with
    | .ocRsync _ _ _ => true
    | _ => false

/-- A single shell word made of letters, digits and `_ . / -`, which the shell
passes on unchanged. -/
def isShellWord (s : String) : Bool :=
  !s.data.isEmpty && s.data.all fun c => c.isAlphanum || c ∈ ['_', '.', '/', '-']

end push

end openshift

/-! ## Part 6: test doubles and predicates used in the statements -/

namespace aws

/-- A test double for S3 in which `GetObject` succeeds on every key and hands
back a body with the content `hello world` whose reading breaks after three
bytes; every other call succeeds with nothing and the clock stands at 0. -/
def brokenBodyEnv : S3Env where
  GetObject := fun _ _ _ =>
    .ok { content := bytes "hello world", failure := some (3, ⟨"connection reset by peer"⟩) }
  ListBuckets := fun _ => ([], none)
  ListObjects := fun _ _ => ([], none)
  DeleteObjects := fun _ _ _ => none
  DeleteBucket := fun _ _ => none
  Now := fun _ => 0

/-- Every delete call in `calls` addresses a bucket of `listed` whose name
contains `rolesubstr` or `velerosubstr` and whose age, at some reading of the
clock, exceeded `olderthan`. -/
def DeletesOnlyMatching (w : S3Env) (rolesubstr : GoString) (olderthan : time.Duration)
    (listed : List Bucket) (calls : List Call) : Prop :=
  ∀ c ∈ calls, c.isDelete = true →
    ∃ b ∈ listed, ∃ k : Nat,
      c.bucket = b.Name
      ∧ (strings.Contains b.Name rolesubstr = true ∨ strings.Contains b.Name velerosubstr = true)
      ∧ time.Sub (w.Now k) b.CreationDate > olderthan

/-- Every `DeleteBucket b` in `calls` comes directly after `ListObjects b` and
`DeleteObjects b keys`, where `keys` are the keys of the objects that were
listed and the `DeleteObjects` call reported no error. -/
def ObjectsBeforeBucket (w : S3Env) (calls : List Call) : Prop :=
  ∀ (pre post : List Call) (b : GoString), calls = pre ++ Call.DeleteBucket b :: post →
    ∃ pre0 : List Call,
      pre = pre0 ++ [Call.ListObjects b,
        Call.DeleteObjects b ((w.ListObjects pre0 b).1.map (·.Key))]
      ∧ w.DeleteObjects (pre0 ++ [Call.ListObjects b]) b ((w.ListObjects pre0 b).1.map (·.Key))
          = none

end aws

namespace openshift

namespace push

/-- The commands of the waiting loop when the harness is seen terminated at
poll number `k` (from 0): `k` times a poll and `sleep 1`, then the last poll. -/
def waitEvents (pod : String) : Nat → List Event
  | 0 => [Event.ocGetPodState pod]
  | k + 1 => Event.ocGetPodState pod :: Event.sleep 1 :: waitEvents pod k

/-- One transfer attempt: `$(hostname)` is expanded, then `oc rsync` runs. -/
def attemptEvents (env : Env) (outdir : String) : List Event :=
  [Event.hostname, Event.ocRsync "push-results" (outdir ++ "/.") (env.hostname ++ ":" ++ outdir)]

/-- The commands of `n` failed transfer attempts, each followed by `sleep 10`. -/
def failedAttempts (env : Env) (outdir : String) : Nat → List Event
  | 0 => []
  | n + 1 => attemptEvents env outdir ++ Event.sleep 10 :: failedAttempts env outdir n

/-- The commands before the transfer loop when the harness is seen terminated
at poll number `k`. -/
def preamble (env : Env) (jobname : String) (k : Nat) : List Event :=
  Event.ocGetPods ("job-name=" ++ jobname) :: Event.echo ("Found Job Pod: " ++ env.jobPod)
    :: waitEvents env.jobPod k

/-- The exit status of a loop whose body ends in a sleep, after `n` runs of
the body: the status `before` when the body never ran, else the status of the
last sleep, `sleeps` being the number of sleeps run before the loop. -/
def lastSleepStatus (env : Env) (before sleeps : Nat) : Nat → Nat
  | 0 => before
  | n + 1 => env.sleep (sleeps + n)

/-- A test double in which the harness is already terminated at the first poll,
every transfer attempt fails with exit status 1 and every sleep succeeds. -/
def allTransfersFail : Env where
  jobPod := "openshift-conformance-x7k2p"
  hostname := "osde2e-main-abcde"
  harnessTerminated := fun _ => true
  rsync := fun _ => 1
  sleep := fun _ => 0

end push

end openshift

namespace aws

/-- An unreserved byte of RFC 3986: an ASCII letter, a digit or one of `- _ . ~`. -/
def isUnreservedByte (c : Nat) : Bool :=
  url.isAlpha c || url.isDigit c || c == '-'.toNat || c == '_'.toNat || c == '.'.toNat
    || c == '~'.toNat

/-- A byte that `url.Parse` leaves alone inside one path segment: not `/`, not
one of the delimiters `?`, `#`, `%`, and not an ASCII control byte. -/
def isPlainSegmentByte (c : Nat) : Bool :=
  c != '/'.toNat && c != '?'.toNat && c != '#'.toNat && c != '%'.toNat
    && !(decide (c < ' '.toNat) || c == 0x7f)

/-- A process environment for the session initialiser: every key reads as the
empty string and the configuration loads without error. -/
def plainSessionEnv : SessionEnv where
  AWSRegion := "aws.region"
  AWSProfile := "aws.profile"
  AWSAccountId := "aws.accountId"
  viperGetString := fun _ => []
  LoadDefaultConfig := fun region profile =>
    ({ Region := region, SharedConfigProfile := profile }, none)

/-- A test double for S3 that holds the single bucket `osde2e-abc`, created at
time 0, while the clock reads 100. Listing the objects of a bucket fails (no
objects, an error); `DeleteObjects` and `DeleteBucket` report no error. -/
def listingFailsEnv : S3Env where
  GetObject := fun _ _ _ => .error ⟨"NoSuchKey"⟩
  ListBuckets := fun _ => ([{ Name := bytes "osde2e-abc", CreationDate := 0 }], none)
  ListObjects := fun _ _ => ([], some ⟨"AccessDenied"⟩)
  DeleteObjects := fun _ _ _ => none
  DeleteBucket := fun _ _ => none
  Now := fun _ => 100

/-- A test double for S3 that holds the bucket `osde2e-abc` with the objects
`junit.xml` and `build.log`, and the bucket `keep-me`, both created at time 0,
while the clock reads 100; every call succeeds. -/
def twoBucketsEnv : S3Env where
  GetObject := fun _ _ _ => .error ⟨"NoSuchKey"⟩
  ListBuckets := fun _ =>
    ([{ Name := bytes "osde2e-abc", CreationDate := 0 },
      { Name := bytes "keep-me", CreationDate := 0 }], none)
  ListObjects := fun _ b =>
    if b = bytes "osde2e-abc" then ([⟨bytes "junit.xml"⟩, ⟨bytes "build.log"⟩], none)
    else ([], none)
  DeleteObjects := fun _ _ _ => none
  DeleteBucket := fun _ _ => none
  Now := fun _ => 100

end aws

/-! ## Theorems -/

namespace strings

/-- `Contains s substr` says that `substr` occurs in `s` as a contiguous block. -/
theorem Contains_iff (s substr : GoString) : Contains s substr = true ↔ substr <:+: s := by
  unfold Contains
  rw [decide_eq_true_eq]
  induction s with
  | nil =>
    by_cases h : substr = []
    · simp [Index, h]
    · simp [Index, h]
  | cons c t ih =>
    rw [Index.eq_def]
    simp only
    rw [List.infix_cons_iff, ← List.isPrefixOf_iff_prefix]
    by_cases hp : substr.isPrefixOf (c :: t) = true
    · simp [hp]
    · simp only [hp, if_false, false_or, Bool.false_eq_true]
      rw [← ih]
      split <;> omega

end strings

namespace openshift

/-- C2: for every namespace, suffix, image, job name, service account and
every timeout > 0 (a Go `int`, so below 2^63), the job returned by `getTestJob`
has `ActiveDeadlineSeconds` equal to the timeout and exactly two containers,
and each container has exactly one mount of the output volume `test-output`,
all of them at one and the same mount path. -/
theorem getTestJob_deadline_and_output_mount (DefaultRunner : runner.Runner)
    (ns image suffix podname saname : String) (timeout : Int)
    (hpos : 0 < timeout) (hint : timeout < 2 ^ 63) :
    (podSpec (getTestJob DefaultRunner ns timeout image suffix podname saname)).ActiveDeadlineSeconds
        = some timeout
    ∧ (podSpec (getTestJob DefaultRunner ns timeout image suffix podname saname)).Containers.length = 2
    ∧ (∃ v ∈ (podSpec (getTestJob DefaultRunner ns timeout image suffix podname saname)).Volumes,
        v.Name = "test-output" ∧ v.VolumeSource.EmptyDir ≠ none)
    ∧ ∃ path : String,
        ∀ c ∈ (podSpec (getTestJob DefaultRunner ns timeout image suffix podname saname)).Containers,
          mountsOf c "test-output" = [{ Name := "test-output", MountPath := path }] := by
  refine ⟨?_, rfl, ?_, DefaultRunner.OutputDir, ?_⟩
  · have h : int64 timeout = timeout := by
      unfold int64
      omega
    simp [podSpec, getTestJob, h]
  · simp [podSpec, getTestJob]
  · intro c hc
    simp only [podSpec, getTestJob, List.mem_cons, List.mem_singleton, List.not_mem_nil,
      or_false] at hc
    rcases hc with rfl | rfl <;> simp [mountsOf, List.filter]

/-- Witness for C2: the conformance flow's own call, timeout 7200 seconds. -/
theorem getTestJob_deadline_and_output_mount_witness :
    (podSpec (getTestJob ⟨"/test-run-results"⟩ "osde2e-x" 7200 "img" "abcde"
        "openshift-conformance" "cluster-admin")).ActiveDeadlineSeconds = some 7200
    ∧ (podSpec (getTestJob ⟨"/test-run-results"⟩ "osde2e-x" 7200 "img" "abcde"
        "openshift-conformance" "cluster-admin")).Containers.length = 2
    ∧ (∃ v ∈ (podSpec (getTestJob ⟨"/test-run-results"⟩ "osde2e-x" 7200 "img" "abcde"
        "openshift-conformance" "cluster-admin")).Volumes,
        v.Name = "test-output" ∧ v.VolumeSource.EmptyDir ≠ none)
    ∧ ∃ path : String,
        ∀ c ∈ (podSpec (getTestJob ⟨"/test-run-results"⟩ "osde2e-x" 7200 "img" "abcde"
            "openshift-conformance" "cluster-admin")).Containers,
          mountsOf c "test-output" = [{ Name := "test-output", MountPath := path }] :=
  getTestJob_deadline_and_output_mount ⟨"/test-run-results"⟩ "osde2e-x" "img" "abcde"
    "openshift-conformance" "cluster-admin" 7200 (by decide) (by decide)

/-- C3: for every input the job returned by `getTestJob` has restart policy
`Never`, and its containers are exactly `test-harness`, whose mounts are the
shared volume `test-output` and its own script volume `test-cmd`, and
`push-results`, whose mounts are `test-output` and its own script volume
`push-results`; the two script volumes differ. -/
theorem getTestJob_restart_never_and_mounts (DefaultRunner : runner.Runner)
    (ns image suffix podname saname : String) (timeout : Int) :
    (podSpec (getTestJob DefaultRunner ns timeout image suffix podname saname)).RestartPolicy
        = corev1.RestartPolicyNever
    ∧ ∃ c1 c2 : corev1.Container,
        (podSpec (getTestJob DefaultRunner ns timeout image suffix podname saname)).Containers
            = [c1, c2]
        ∧ c1.Name = "test-harness"
        ∧ c1.VolumeMounts.map (·.Name) = ["test-output", "test-cmd"]
        ∧ c2.Name = "push-results"
        ∧ c2.VolumeMounts.map (·.Name) = ["test-output", "push-results"]
        ∧ ("test-cmd" : String) ≠ "push-results"
        ∧ ("test-cmd" : String) ≠ "test-output"
        ∧ ("push-results" : String) ≠ "test-output" := by
  refine ⟨rfl, _, _, rfl, rfl, rfl, rfl, rfl, ?_, ?_, ?_⟩ <;> decide

/-- C4: for every suffix the config-map volumes of the job returned by
`getTestJob` are `push-results`, backed by the config map
`"push-results-" ++ suffix`, and `test-cmd`, backed by `"test-cmd-" ++ suffix`,
each with default mode 0755; both names are injective in the suffix and a
`test-cmd-` name never equals a `push-results-` name. -/
theorem getTestJob_configMap_names (DefaultRunner : runner.Runner)
    (ns image suffix podname saname : String) (timeout : Int) :
    configMapVolumes (podSpec (getTestJob DefaultRunner ns timeout image suffix podname saname))
        = [("push-results", "push-results-" ++ suffix, some 0o755),
           ("test-cmd", "test-cmd-" ++ suffix, some 0o755)]
    ∧ (∀ s1 s2 : String, "test-cmd-" ++ s1 = "test-cmd-" ++ s2 → s1 = s2)
    ∧ (∀ s1 s2 : String, "push-results-" ++ s1 = "push-results-" ++ s2 → s1 = s2)
    ∧ (∀ s1 s2 : String, "test-cmd-" ++ s1 ≠ "push-results-" ++ s2) := by
  refine ⟨rfl, ?_, ?_, ?_⟩
  · intro s1 s2 h
    have hd := congrArg String.data h
    simp only [String.data_append] at hd
    exact String.ext (List.append_cancel_left hd)
  · intro s1 s2 h
    have hd := congrArg String.data h
    simp only [String.data_append] at hd
    exact String.ext (List.append_cancel_left hd)
  · intro s1 s2 h
    have hd := congrArg String.data h
    simp [String.data_append] at hd

/-- C5 as stated fails: two jobs built with the distinct suffixes `aaaaa` and
`bbbbb` (and the job name the conformance flow passes) carry the same name. -/
theorem getTestJob_name_from_suffix_counterexample :
    ¬ (∀ (DefaultRunner : runner.Runner) (ns image podname saname s1 s2 : String) (timeout : Int),
        s1 ≠ s2 →
        (getTestJob DefaultRunner ns timeout image s1 podname saname).ObjectMeta.Name
          ≠ (getTestJob DefaultRunner ns timeout image s2 podname saname).ObjectMeta.Name) := by
  intro h
  exact h ⟨"/test-run-results"⟩ "osde2e-x" "img" "openshift-conformance" "cluster-admin"
    "aaaaa" "bbbbb" 7200 (by decide) rfl

/-- C5 amended: the name (and namespace) of the job built by `getTestJob` are
the `podname` and `namespace` arguments and do not depend on the suffix: two
jobs have the same name exactly when they were built with the same `podname`,
whatever their suffixes. -/
theorem getTestJob_name_is_podname (R1 R2 : runner.Runner)
    (ns1 ns2 image1 image2 suffix1 suffix2 podname1 podname2 saname1 saname2 : String)
    (timeout1 timeout2 : Int) :
    (getTestJob R1 ns1 timeout1 image1 suffix1 podname1 saname1).ObjectMeta.Name = podname1
    ∧ (getTestJob R1 ns1 timeout1 image1 suffix1 podname1 saname1).ObjectMeta.Namespace = ns1
    ∧ ((getTestJob R1 ns1 timeout1 image1 suffix1 podname1 saname1).ObjectMeta.Name
          = (getTestJob R2 ns2 timeout2 image2 suffix2 podname2 saname2).ObjectMeta.Name
        ↔ podname1 = podname2) :=
  ⟨rfl, rfl, Iff.rfl⟩

/-- C10: the job returned by `getTestJob` is internally consistent for every
input: each mount name used by a container names a declared volume, each
declared volume is mounted by some container, the volume names are pairwise
distinct, and each container's command is `/bin/sh` followed by a script path
`<mount path>/<file>` where the mount is one of that container's mounts, its
volume is config-map backed, and `<file>` is a non-empty name without `/`; the
two script paths are `/test-cmd/test-cmd.sh` and `/push-results/push-results.sh`. -/
theorem getTestJob_internally_consistent (DefaultRunner : runner.Runner)
    (ns image suffix podname saname : String) (timeout : Int) :
    (∀ n ∈ mountedNames (podSpec (getTestJob DefaultRunner ns timeout image suffix podname saname)),
        n ∈ (podSpec (getTestJob DefaultRunner ns timeout image suffix podname saname)).Volumes.map
          (·.Name))
    ∧ (∀ v ∈ (podSpec (getTestJob DefaultRunner ns timeout image suffix podname saname)).Volumes,
        v.Name ∈ mountedNames
          (podSpec (getTestJob DefaultRunner ns timeout image suffix podname saname)))
    ∧ ((podSpec (getTestJob DefaultRunner ns timeout image suffix podname saname)).Volumes.map
          (·.Name)).Nodup
    ∧ (∀ c ∈ (podSpec (getTestJob DefaultRunner ns timeout image suffix podname saname)).Containers,
        ∃ m ∈ c.VolumeMounts,
          ∃ v ∈ (podSpec (getTestJob DefaultRunner ns timeout image suffix podname saname)).Volumes,
            ∃ file : String,
              v.Name = m.Name ∧ v.VolumeSource.ConfigMap ≠ none
              ∧ file ≠ "" ∧ '/' ∉ file.data
              ∧ c.Command = ["/bin/sh", m.MountPath ++ "/" ++ file])
    ∧ (podSpec (getTestJob DefaultRunner ns timeout image suffix podname saname)).Containers.map
          (·.Command)
        = [["/bin/sh", "/test-cmd/test-cmd.sh"], ["/bin/sh", "/push-results/push-results.sh"]] := by
  refine ⟨?_, ?_, ?_, ?_, rfl⟩
  · intro n hn
    simp only [mountedNames, podSpec, getTestJob, List.flatMap_cons, List.flatMap_nil,
      List.map_cons, List.map_nil, List.append_nil, List.cons_append, List.nil_append,
      List.mem_cons, List.mem_singleton, List.not_mem_nil, or_false] at hn ⊢
    rcases hn with rfl | rfl | rfl | rfl <;> simp
  · intro v hv
    simp only [podSpec, getTestJob, List.mem_cons, List.mem_singleton, List.not_mem_nil,
      or_false] at hv
    rcases hv with rfl | rfl | rfl <;> simp [mountedNames, podSpec, getTestJob]
  · simp only [podSpec, getTestJob, List.map_cons, List.map_nil]
    decide
  · intro c hc
    simp only [podSpec, getTestJob, List.mem_cons, List.mem_singleton, List.not_mem_nil,
      or_false] at hc
    rcases hc with rfl | rfl
    · refine ⟨⟨"test-cmd", "/test-cmd"⟩, by simp, _, List.mem_cons_of_mem _
        (List.mem_cons_of_mem _ (List.mem_cons_self _ _)), "test-cmd.sh", rfl, by simp, by decide,
        by decide, ?_⟩
      show ["/bin/sh", "/test-cmd/test-cmd.sh"] = ["/bin/sh", "/test-cmd" ++ "/" ++ "test-cmd.sh"]
      decide
    · refine ⟨⟨"push-results", "/push-results"⟩, by simp, _, List.mem_cons_of_mem _
        (List.mem_cons_self _ _), "push-results.sh", rfl, by simp, by decide,
        by decide, ?_⟩
      show ["/bin/sh", "/push-results/push-results.sh"]
        = ["/bin/sh", "/push-results" ++ "/" ++ "push-results.sh"]
      decide

end openshift

namespace aws

/-- Once the `sync.Once` of a session is done, `GetAWSSessions` returns the
session as it is and performs no effect. -/
theorem GetAWSSessions_of_done (env : SessionEnv) (s : ccsAwsSession) (h : s.once.done = true) :
    GetAWSSessions env s = (s, none, []) := by
  simp [GetAWSSessions, sync.Once.Do, h]

/-- After any call of `GetAWSSessions` the `sync.Once` of the session is done. -/
theorem GetAWSSessions_done (env : SessionEnv) (s : ccsAwsSession) :
    (GetAWSSessions env s).1.once.done = true := by
  by_cases h : s.once.done = true
  · simp [GetAWSSessions, sync.Once.Do, h]
  · simp [GetAWSSessions, sync.Once.Do, h]

/-- On a session whose `sync.Once` is done, every call of a sequence returns
the same session and performs no effect. -/
theorem callGetAWSSessions_of_done (envs : List SessionEnv) (s : ccsAwsSession)
    (h : s.once.done = true) :
    callGetAWSSessions envs s = List.replicate envs.length (s, []) := by
  induction envs with
  | nil => rfl
  | cons env envs ih =>
    simp [callGetAWSSessions, GetAWSSessions_of_done env s h, ih, List.replicate_succ]

/-- The initialiser body loads the configuration exactly once. -/
theorem loads_body (env : SessionEnv) (s : ccsAwsSession) :
    loads (GetAWSSessions.body env (s, [])).2 = 1 := by
  unfold GetAWSSessions.body
  cases h : (env.LoadDefaultConfig (env.viperGetString env.AWSRegion)
      (env.viperGetString env.AWSProfile)).2 <;> simp [h, loads, List.countP_cons]

/-- C7: the session is cached. In every sequence of calls of `GetAWSSessions`
on one session (each call in an environment of its own), the first call runs
the initialiser body (one load of the AWS configuration, building the three
clients) exactly when the session's `sync.Once` has not run yet, and otherwise
nothing; every later call returns the session exactly as the first call left
it (config, clients, accountId and all) and performs no effect; so the whole
sequence loads the configuration at most once; the returned error is `nil`. -/
theorem GetAWSSessions_cached (env : SessionEnv) (envs : List SessionEnv) (s : ccsAwsSession) :
    callGetAWSSessions (env :: envs) s
        = ((GetAWSSessions env s).1, (GetAWSSessions env s).2.2)
            :: List.replicate envs.length ((GetAWSSessions env s).1, [])
    ∧ loads (GetAWSSessions env s).2.2 = (if s.once.done then 0 else 1)
    ∧ (s.once.done = false →
        (GetAWSSessions env s).1 = { (GetAWSSessions.body env (s, [])).1 with once := ⟨true⟩ })
    ∧ (s.once.done = true → (GetAWSSessions env s).1 = s)
    ∧ loads ((callGetAWSSessions (env :: envs) s).flatMap (·.2)) ≤ 1
    ∧ (callGetAWSSessions [] s).flatMap (·.2) = []
    ∧ (GetAWSSessions env s).2.1 = none := by
  have hrest := callGetAWSSessions_of_done envs _ (GetAWSSessions_done env s)
  have hloads : loads (GetAWSSessions env s).2.2 = (if s.once.done then 0 else 1) := by
    by_cases h : s.once.done = true
    · simp [GetAWSSessions_of_done env s h, h, loads]
    · have hb := loads_body env s
      simp only [Bool.not_eq_true] at h
      simp [GetAWSSessions, sync.Once.Do, h, hb]
  have hflat : ∀ (n : Nat) (x : ccsAwsSession),
      (List.replicate n (x, ([] : List Effect))).flatMap (·.2) = [] := by
    intro n x
    induction n with
    | zero => rfl
    | succ n ih => simp [List.replicate_succ, ih]
  refine ⟨?_, hloads, ?_, ?_, ?_, rfl, rfl⟩
  · simp [callGetAWSSessions, hrest]
  · intro h
    simp [GetAWSSessions, sync.Once.Do, h]
  · intro h
    simp [GetAWSSessions_of_done env s h]
  · simp only [callGetAWSSessions, hrest, List.flatMap_cons, hflat, List.append_nil, hloads]
    split <;> omega

/-- C8, the code at the failing input: for the well-formed URL
`s3://bucket/key`, with `GetObject` succeeding and the read of the body
breaking after three of its eleven bytes, `io.ReadAll` reports an error, yet
`ReadFromS3Session` returns the three bytes read together with a `nil` error. -/
theorem ReadFromS3Session_swallows_read_error :
    ParseS3URL (bytes "s3://bucket/key") = (bytes "bucket", bytes "/key", none)
    ∧ (∃ result, brokenBodyEnv.GetObject [] (bytes "bucket") (bytes "/key") = .ok result
        ∧ result.content = bytes "hello world"
        ∧ (io.ReadAll result).2 ≠ none)
    ∧ ReadFromS3Session brokenBodyEnv (bytes "s3://bucket/key") = (bytes "hel", none) := by
  refine ⟨by decide, ⟨_, rfl, rfl, by decide⟩, by decide⟩

/-- Appending a call that is justified keeps all delete calls justified. -/
theorem DeletesOnlyMatching_append {w : S3Env} {rolesubstr : GoString}
    {olderthan : time.Duration} {listed : List Bucket} {calls : List Call}
    (h : DeletesOnlyMatching w rolesubstr olderthan listed calls) (c : Call)
    (hc : c.isDelete = true →
      ∃ b ∈ listed, ∃ k : Nat,
        c.bucket = b.Name
        ∧ (strings.Contains b.Name rolesubstr = true ∨ strings.Contains b.Name velerosubstr = true)
        ∧ time.Sub (w.Now k) b.CreationDate > olderthan) :
    DeletesOnlyMatching w rolesubstr olderthan listed (calls ++ [c]) := by
  intro d hd hdel
  rcases List.mem_append.1 hd with hd | hd
  · exact h d hd hdel
  · simp only [List.mem_singleton] at hd
    subst hd
    exact hc hdel

/-- Appending a call other than `DeleteBucket` keeps the order property. -/
theorem ObjectsBeforeBucket_append {w : S3Env} {calls : List Call}
    (h : ObjectsBeforeBucket w calls) (c : Call) (hc : ∀ b, c ≠ Call.DeleteBucket b) :
    ObjectsBeforeBucket w (calls ++ [c]) := by
  intro pre post b heq
  rcases List.eq_nil_or_concat post with hp | ⟨post0, x, hp⟩
  · subst hp
    have h2 : calls ++ [c] = pre ++ [Call.DeleteBucket b] := heq
    have h3 := (List.append_inj' h2 rfl).2
    simp only [List.cons.injEq, and_true] at h3
    exact absurd h3 (hc b)
  · subst hp
    have heq2 : calls ++ [c] = (pre ++ Call.DeleteBucket b :: post0) ++ [x] := by
      simpa using heq
    exact h pre post0 b (List.append_inj' heq2 rfl).1

/-- Appending `DeleteBucket b` right after a successful `DeleteObjects` of the
listed keys keeps the order property. -/
theorem ObjectsBeforeBucket_append_delete {w : S3Env} {pre0 : List Call} (b : GoString)
    (h : ObjectsBeforeBucket w
      (pre0 ++ [Call.ListObjects b] ++ [Call.DeleteObjects b ((w.ListObjects pre0 b).1.map (·.Key))]))
    (hok : w.DeleteObjects (pre0 ++ [Call.ListObjects b]) b ((w.ListObjects pre0 b).1.map (·.Key))
      = none) :
    ObjectsBeforeBucket w
      (pre0 ++ [Call.ListObjects b] ++ [Call.DeleteObjects b ((w.ListObjects pre0 b).1.map (·.Key))]
        ++ [Call.DeleteBucket b]) := by
  intro pre post b2 heq
  rcases List.eq_nil_or_concat post with hp | ⟨post0, x, hp⟩
  · subst hp
    have h2 : pre0 ++ [Call.ListObjects b]
        ++ [Call.DeleteObjects b ((w.ListObjects pre0 b).1.map (·.Key))] ++ [Call.DeleteBucket b]
        = pre ++ [Call.DeleteBucket b2] := heq
    obtain ⟨h3, h4⟩ := List.append_inj' h2 rfl
    simp only [List.cons.injEq, Call.DeleteBucket.injEq, and_true] at h4
    subst h4
    exact ⟨pre0, by simpa using h3.symm, hok⟩
  · subst hp
    have heq2 : pre0 ++ [Call.ListObjects b]
        ++ [Call.DeleteObjects b ((w.ListObjects pre0 b).1.map (·.Key))] ++ [Call.DeleteBucket b]
        = (pre ++ Call.DeleteBucket b2 :: post0) ++ [x] := by
      simpa using heq
    exact h pre post0 b2 (List.append_inj' heq2 rfl).1

/-- The loop of the clean-up keeps both guarantees. -/
theorem CleanupS3Buckets.loop_ok (w : S3Env) (rolesubstr : GoString) (olderthan : time.Duration)
    (dryrun : Bool) (listed : List Bucket) (buckets : List Bucket) :
    ∀ st : CleanupState, (∀ b ∈ buckets, b ∈ listed) →
      DeletesOnlyMatching w rolesubstr olderthan listed st.calls →
      ObjectsBeforeBucket w st.calls →
      DeletesOnlyMatching w rolesubstr olderthan listed
          (CleanupS3Buckets.loop w rolesubstr olderthan dryrun buckets st).calls
      ∧ ObjectsBeforeBucket w
          (CleanupS3Buckets.loop w rolesubstr olderthan dryrun buckets st).calls := by
  induction buckets with
  | nil => intro st _ h1 h2; exact ⟨h1, h2⟩
  | cons bucket buckets ih =>
    intro st hsub h1 h2
    have hsub2 : ∀ b ∈ buckets, b ∈ listed := fun b hb => hsub b (List.mem_cons_of_mem _ hb)
    have hin : bucket ∈ listed := hsub bucket (List.mem_cons_self _ _)
    simp only [CleanupS3Buckets.loop]
    split
    · rename_i hname
      split
      · rename_i hold
        have hjust : ∀ c : Call, c.bucket = bucket.Name → (c.isDelete = true →
            ∃ b ∈ listed, ∃ k : Nat,
              c.bucket = b.Name
              ∧ (strings.Contains b.Name rolesubstr = true
                  ∨ strings.Contains b.Name velerosubstr = true)
              ∧ time.Sub (w.Now k) b.CreationDate > olderthan) := by
          intro c hc _
          refine ⟨bucket, hin, st.clock, hc, ?_, hold⟩
          simpa [Bool.or_eq_true] using hname
        split
        · have h1a := DeletesOnlyMatching_append h1 (Call.ListObjects bucket.Name) (hjust _ rfl)
          have h2a := ObjectsBeforeBucket_append h2 (Call.ListObjects bucket.Name) (by intro b; simp)
          have h1b := DeletesOnlyMatching_append h1a
            (Call.DeleteObjects bucket.Name ((w.ListObjects st.calls bucket.Name).1.map (·.Key)))
            (hjust _ rfl)
          have h2b := ObjectsBeforeBucket_append h2a
            (Call.DeleteObjects bucket.Name ((w.ListObjects st.calls bucket.Name).1.map (·.Key)))
            (by intro b; simp)
          split
          · exact ih _ hsub2 h1b h2b
          · rename_i hdel
            have h1c := DeletesOnlyMatching_append h1b (Call.DeleteBucket bucket.Name) (hjust _ rfl)
            have h2c := ObjectsBeforeBucket_append_delete bucket.Name h2b hdel
            split <;> exact ih _ hsub2 h1c h2c
        · exact ih _ hsub2 h1 h2
      · exact ih _ hsub2 h1 h2
    · exact ih _ hsub2 h1 h2

/-- In a dry run the loop of the clean-up makes no call at all. -/
theorem CleanupS3Buckets.loop_dryrun (w : S3Env) (rolesubstr : GoString)
    (olderthan : time.Duration) (buckets : List Bucket) :
    ∀ st : CleanupState,
      (CleanupS3Buckets.loop w rolesubstr olderthan true buckets st).calls = st.calls := by
  induction buckets with
  | nil => intro st; rfl
  | cons bucket buckets ih =>
    intro st
    simp only [CleanupS3Buckets.loop]
    split
    · split
      · simp [ih]
      · simp [ih]
    · exact ih st

/-- Safety of the clean-up, for every answer of S3, every clock and every
duration `olderthan`: each delete call (`DeleteObjects`, `DeleteBucket`) issued
by `CleanupS3Buckets` addresses a bucket returned by `ListBuckets` whose name
contains `rolesubstr` or `managed-velero` and whose age (a reading of the clock
minus its creation date) exceeded `olderthan`; each `DeleteBucket b` comes
directly after `ListObjects b` and a `DeleteObjects b` that reported no error
and was given the keys which that `ListObjects` call returned (the code does
not look at the error of `ListObjects`); and in a dry run no delete call is
issued. -/
theorem CleanupS3Buckets_deletes_only_old_matching (env : SessionEnv) (w : S3Env)
    (rolesubstr : GoString) (sess : ccsAwsSession) (olderthan : time.Duration) (dryrun : Bool) :
    (∀ c ∈ (CleanupS3Buckets env w rolesubstr sess olderthan dryrun).2.1.calls,
      c.isDelete = true →
        ∃ b ∈ (w.ListBuckets []).1, ∃ k : Nat,
          c.bucket = b.Name
          ∧ (rolesubstr <:+: b.Name ∨ bytes "managed-velero" <:+: b.Name)
          ∧ time.Sub (w.Now k) b.CreationDate > olderthan)
    ∧ (∀ (pre post : List Call) (b : GoString),
        (CleanupS3Buckets env w rolesubstr sess olderthan dryrun).2.1.calls
            = pre ++ Call.DeleteBucket b :: post →
        ∃ pre0 : List Call,
          pre = pre0 ++ [Call.ListObjects b,
            Call.DeleteObjects b ((w.ListObjects pre0 b).1.map (·.Key))]
          ∧ w.DeleteObjects (pre0 ++ [Call.ListObjects b]) b
              ((w.ListObjects pre0 b).1.map (·.Key)) = none)
    ∧ (dryrun = true →
        ∀ c ∈ (CleanupS3Buckets env w rolesubstr sess olderthan dryrun).2.1.calls,
          c.isDelete = false) := by
  have key : DeletesOnlyMatching w rolesubstr olderthan (w.ListBuckets []).1
        (CleanupS3Buckets env w rolesubstr sess olderthan dryrun).2.1.calls
      ∧ ObjectsBeforeBucket w (CleanupS3Buckets env w rolesubstr sess olderthan dryrun).2.1.calls
      ∧ (dryrun = true →
          ∀ c ∈ (CleanupS3Buckets env w rolesubstr sess olderthan dryrun).2.1.calls,
            c.isDelete = false) := by
    have hnil1 : DeletesOnlyMatching w rolesubstr olderthan (w.ListBuckets []).1 [] := by
      intro c hc; simp at hc
    have hnil2 : ObjectsBeforeBucket w [] := by
      intro pre post b h; simp at h
    have hlb1 := DeletesOnlyMatching_append hnil1 Call.ListBuckets (by simp [Call.isDelete])
    have hlb2 := ObjectsBeforeBucket_append hnil2 Call.ListBuckets (by intro b; simp)
    simp only [List.nil_append] at hlb1 hlb2
    unfold CleanupS3Buckets
    rcases hs : GetAWSSessions env sess with ⟨s1, e, effs⟩
    cases e with
    | some err => exact ⟨hnil1, hnil2, by intro _ c hc; simp at hc⟩
    | none =>
      rcases hl : w.ListBuckets [] with ⟨bs, e⟩
      rw [hl] at hlb1
      cases e with
      | some err =>
        refine ⟨hlb1, hlb2, ?_⟩
        intro _ c hc
        simp only [List.mem_singleton] at hc
        subst hc
        rfl
      | none =>
        have hloop := CleanupS3Buckets.loop_ok w rolesubstr olderthan dryrun bs bs
          ⟨[Call.ListBuckets], 0⟩ (fun b hb => hb) hlb1 hlb2
        refine ⟨hloop.1, hloop.2, ?_⟩
        intro hd c hc
        subst hd
        simp only [CleanupS3Buckets.loop_dryrun, List.mem_singleton] at hc
        subst hc
        rfl
  refine ⟨fun c hc hdel => ?_, key.2.1, key.2.2⟩
  obtain ⟨b, hb, k, hname, hsub, hage⟩ := key.1 c hc hdel
  exact ⟨b, hb, k, hname,
    hsub.imp (strings.Contains_iff _ _).1 (strings.Contains_iff _ _).1, hage⟩

end aws

namespace openshift

namespace push

/-- The waiting loop ends at the first poll that sees the harness terminated,
given fuel for that many polls. -/
theorem whileNotTerminated_eq (env : Env) (pod : String) (k : Nat) :
    ∀ (fuel last : Nat) (st : State), k < fuel →
      (∀ j < k, env.harnessTerminated (st.polls + j) = false) →
      env.harnessTerminated (st.polls + k) = true →
      whileNotTerminated env pod fuel last st
        = some { events := st.events ++ waitEvents pod k
                 status := lastSleepStatus env last st.sleeps k
                 polls := st.polls + k + 1
                 sleeps := st.sleeps + k
                 attempts := st.attempts } := by
  induction k with
  | zero =>
    intro fuel last st hfuel _ hk
    obtain ⟨fuel, rfl⟩ : ∃ f, fuel = f + 1 := ⟨fuel - 1, by omega⟩
    simp only [Nat.add_zero] at hk
    simp [whileNotTerminated, hk, waitEvents, lastSleepStatus]
  | succ k ih =>
    intro fuel last st hfuel hlt hk
    obtain ⟨fuel, rfl⟩ : ∃ f, fuel = f + 1 := ⟨fuel - 1, by omega⟩
    have h0 : env.harnessTerminated st.polls = false := by simpa using hlt 0 (by omega)
    simp only [whileNotTerminated, h0, Bool.false_eq_true, if_false]
    rw [ih fuel _ _ (by omega)]
    · simp only [execSleep, waitEvents, List.append_assoc, List.singleton_append,
        Option.some.injEq, State.mk.injEq, true_and]
      refine ⟨by simp, ?_, by omega, by omega, trivial⟩
      cases k with
      | zero => rfl
      | succ k0 => simp only [lastSleepStatus]; congr 1; omega
    · intro j hj
      have := hlt (j + 1) (by omega)
      simpa [execSleep, Nat.add_assoc, Nat.add_comm 1 j] using this
    · simpa [execSleep, Nat.add_assoc, Nat.add_comm 1 k] using hk

/-- When all the attempts for the words of the list fail, the transfer loop
runs one attempt and one `sleep 10` per word and ends with the status of the
last sleep. -/
theorem forTransfer_all_fail (env : Env) (outdir : String) (words : List Nat) :
    ∀ st : State, (∀ j < words.length, env.rsync (st.attempts + j) ≠ 0) →
      forTransfer env outdir words st
        = { events := st.events ++ failedAttempts env outdir words.length
            status := lastSleepStatus env st.status st.sleeps words.length
            polls := st.polls
            sleeps := st.sleeps + words.length
            attempts := st.attempts + words.length } := by
  induction words with
  | nil => intro st _; simp [forTransfer, failedAttempts, lastSleepStatus]
  | cons i words ih =>
    intro st hfail
    have h0 : env.rsync st.attempts ≠ 0 := by simpa using hfail 0 (by simp)
    simp only [forTransfer, h0, if_false]
    rw [ih]
    · simp only [execSleep, failedAttempts, attemptEvents, List.length_cons, List.append_assoc,
        List.singleton_append, List.cons_append, List.nil_append, State.mk.injEq, true_and]
      refine ⟨?_, by omega, by omega⟩
      cases words with
      | nil => rfl
      | cons x xs => simp only [List.length_cons, lastSleepStatus]; congr 1; omega
    · intro j hj
      have := hfail (j + 1) (by simpa using hj)
      simpa [execSleep, Nat.add_assoc, Nat.add_comm 1 j] using this

/-- When the attempt number `a` is the first to succeed, the transfer loop
stops right after it, with status 0. -/
theorem forTransfer_success (env : Env) (outdir : String) (a : Nat) :
    ∀ (words : List Nat) (st : State), a < words.length →
      (∀ j < a, env.rsync (st.attempts + j) ≠ 0) →
      env.rsync (st.attempts + a) = 0 →
      forTransfer env outdir words st
        = { events := st.events ++ failedAttempts env outdir a ++ attemptEvents env outdir
            status := 0
            polls := st.polls
            sleeps := st.sleeps + a
            attempts := st.attempts + a + 1 } := by
  induction a with
  | zero =>
    intro words st hlen _ hok
    obtain ⟨i, words, rfl⟩ : ∃ i ws, words = i :: ws := by
      cases words with
      | nil => simp at hlen
      | cons i ws => exact ⟨i, ws, rfl⟩
    simp only [Nat.add_zero] at hok
    simp [forTransfer, hok, failedAttempts, attemptEvents]
  | succ a ih =>
    intro words st hlen hfail hok
    obtain ⟨i, words, rfl⟩ : ∃ i ws, words = i :: ws := by
      cases words with
      | nil => simp at hlen
      | cons i ws => exact ⟨i, ws, rfl⟩
    have h0 : env.rsync st.attempts ≠ 0 := by simpa using hfail 0 (by omega)
    simp only [forTransfer, h0, if_false]
    rw [ih]
    · simp only [execSleep, failedAttempts, attemptEvents, List.append_assoc,
        List.singleton_append, List.cons_append, List.nil_append, State.mk.injEq, true_and]
      omega
    · simpa using hlen
    · intro j hj
      have := hfail (j + 1) (by omega)
      simpa [execSleep, Nat.add_assoc, Nat.add_comm 1 j] using this
    · simpa [execSleep, Nat.add_assoc, Nat.add_comm 1 a] using hok

/-- The waiting loop makes no transfer attempt. -/
theorem transfers_waitEvents (pod : String) (k : Nat) : transfers (waitEvents pod k) = [] := by
  induction k with
  | zero => rfl
  | succ k ih => simpa [waitEvents, transfers] using ih

/-- Among the commands of `n` failed attempts there are `n` transfers. -/
theorem transfers_failedAttempts (env : Env) (outdir : String) (n : Nat) :
    (transfers (failedAttempts env outdir n)).length = n := by
  induction n with
  | zero => rfl
  | succ n ih =>
    simp only [transfers] at ih
    simp [failedAttempts, attemptEvents, transfers, ih]

/-- The commands before the transfer loop contain no transfer attempt. -/
theorem transfers_preamble (env : Env) (jobname : String) (k : Nat) :
    transfers (preamble env jobname k) = [] := by
  have h := transfers_waitEvents env.jobPod k
  simp only [transfers] at h
  simp [preamble, transfers, h]

/-- The list of transfers of two lists of commands put together. -/
theorem transfers_append (xs ys : List Event) :
    transfers (xs ++ ys) = transfers xs ++ transfers ys := by
  simp [transfers]

/-- C9 as stated fails: with the harness terminated, every transfer attempt
failing with status 1 and every sleep succeeding, the script makes 5 attempts
and 5 sleeps of 10 seconds (one after the last attempt as well) and then exits
with status 0, not with the status of the last attempt. -/
theorem push_script_exit_status_counterexample :
    (∀ a : Nat, allTransfersFail.rsync a ≠ 0)
    ∧ ∃ st : State,
        run allTransfersFail "openshift-conformance" "/test-run-results" 1 = some st
        ∧ (transfers st.events).length = 5
        ∧ st.events.count (Event.sleep 10) = 5
        ∧ st.events.getLast? = some (Event.sleep 10)
        ∧ st.status = 0 := by
  refine ⟨fun a => by simp [allTransfersFail], _, rfl, ?_, ?_, ?_, ?_⟩ <;> decide

/-- C9 amended: for a job name and an output directory that are single shell
words, run by bash with a harness first seen terminated at poll `k`, the
script of `getPushCmd` ends. If the first five transfer attempts all fail, it
runs exactly 5 attempts, each followed by `sleep 10` (also the last one), and
its exit status is that of the last `sleep 10`. If attempt `a` (counted from 0,
below 5) is the first to succeed, it runs `a` failed attempts each followed by
`sleep 10`, then the successful attempt, and stops there with exit status 0. -/
theorem push_script_retries (env : Env) (jobname outdir : String) (k fuel : Nat)
    (hjob : isShellWord jobname = true) (hout : isShellWord outdir = true)
    (hwait : ∀ j < k, env.harnessTerminated j = false)
    (hterm : env.harnessTerminated k = true) (hfuel : k < fuel) :
    ∃ st : State, run env jobname outdir fuel = some st
      ∧ ((∀ a < 5, env.rsync a ≠ 0) →
          st.events = preamble env jobname k ++ failedAttempts env outdir 5
          ∧ (transfers st.events).length = 5
          ∧ st.status = env.sleep (k + 4))
      ∧ (∀ a < 5, (∀ j < a, env.rsync j ≠ 0) → env.rsync a = 0 →
          st.events = preamble env jobname k ++ failedAttempts env outdir a
            ++ attemptEvents env outdir
          ∧ (transfers st.events).length = a + 1
          ∧ st.status = 0) := by
  have hw := whileNotTerminated_eq env env.jobPod k fuel 0
    { events := [Event.ocGetPods ("job-name=" ++ jobname),
        Event.echo ("Found Job Pod: " ++ env.jobPod)] } hfuel
    (by simpa using hwait) (by simpa using hterm)
  have hrun : run env jobname outdir fuel = some (forTransfer env outdir (braceRange 1 5)
      { events := preamble env jobname k
        status := lastSleepStatus env 0 0 k
        polls := k + 1
        sleeps := k
        attempts := 0 }) := by
    simp only [run, List.singleton_append, hw]
    simp [preamble]
  refine ⟨_, hrun, ?_, ?_⟩
  · intro hfail
    have hall := forTransfer_all_fail env outdir (braceRange 1 5)
      { events := preamble env jobname k
        status := lastSleepStatus env 0 0 k
        polls := k + 1
        sleeps := k
        attempts := 0 } (by simpa [braceRange] using hfail)
    rw [hall]
    refine ⟨by simp [braceRange], ?_, by simp [braceRange, lastSleepStatus]⟩
    simp only [braceRange, List.length_range', transfers_append, transfers_preamble,
      List.nil_append]
    exact transfers_failedAttempts env outdir 5
  · intro a ha hfail hok
    have hsucc := forTransfer_success env outdir a (braceRange 1 5)
      { events := preamble env jobname k
        status := lastSleepStatus env 0 0 k
        polls := k + 1
        sleeps := k
        attempts := 0 } (by simpa [braceRange] using ha)
      (by simpa using hfail) (by simpa using hok)
    rw [hsucc]
    refine ⟨rfl, ?_, rfl⟩
    simp only [transfers_append, transfers_preamble, List.nil_append, List.length_append,
      transfers_failedAttempts]
    rfl

/-- Witness for C9: the conformance flow's job name and output directory, a
harness seen terminated at the third poll, transfers that fail twice and then
succeed. -/
theorem push_script_retries_witness :
    ∃ st : State,
      run ⟨"pod-1", "host-1", fun j => decide (2 ≤ j), fun a => if a < 2 then 1 else 0,
          fun _ => 0⟩ "openshift-conformance" "/test-run-results" 3 = some st
      ∧ (transfers st.events).length = 3
      ∧ st.status = 0 := by
  obtain ⟨st, hrun, _, hsucc⟩ := push_script_retries
    ⟨"pod-1", "host-1", fun j => decide (2 ≤ j), fun a => if a < 2 then 1 else 0, fun _ => 0⟩
    "openshift-conformance" "/test-run-results" 2 3 (by decide) (by decide)
    (by intro j hj; simp; omega) (by decide) (by decide)
  obtain ⟨_, h2, h3⟩ := hsucc 2 (by decide) (by intro j hj; simp; omega) (by decide)
  exact ⟨st, hrun, h2, h3⟩

end push

end openshift

namespace strings

/-- A byte that does not occur in `s` has no index in `s`. -/
theorem Index_byte_of_not_mem (c : Nat) (s : GoString) (h : c ∉ s) : Index s [c] = -1 := by
  induction s with
  | nil => simp [Index]
  | cons a t ih =>
    have ha : c ≠ a := fun e => h (e ▸ List.mem_cons_self _ _)
    have ht : c ∉ t := fun m => h (List.mem_cons_of_mem _ m)
    simp [Index, ih ht, ha, List.isPrefixOf]

/-- The first index of a byte that does not occur before it. -/
theorem Index_byte_append (c : Nat) (a r : GoString) (h : c ∉ a) :
    Index (a ++ c :: r) [c] = a.length := by
  induction a with
  | nil => simp [Index, List.isPrefixOf]
  | cons x t ih =>
    have hx : c ≠ x := fun e => h (e ▸ List.mem_cons_self _ _)
    have ht : c ∉ t := fun m => h (List.mem_cons_of_mem _ m)
    have hi := ih ht
    have hp : List.isPrefixOf [c] (x :: (t ++ c :: r)) = false := by
      simp [List.isPrefixOf, hx]
    simp only [List.cons_append, Index, List.append_eq, hi, hp, Bool.false_eq_true, if_false,
      List.length_cons]
    split
    · omega
    · push_cast; rfl

/-- A byte that does not occur in `s` has no last index in `s`. -/
theorem LastIndex_byte_of_not_mem (c : Nat) (s : GoString) (h : c ∉ s) :
    LastIndex s [c] = -1 := by
  induction s with
  | nil => simp [LastIndex]
  | cons a t ih =>
    have ha : c ≠ a := fun e => h (e ▸ List.mem_cons_self _ _)
    have ht : c ∉ t := fun m => h (List.mem_cons_of_mem _ m)
    simp [LastIndex, ih ht, ha, List.isPrefixOf]

/-- Cutting at a byte that does not occur finds nothing. -/
theorem Cut_byte_of_not_mem (c : Nat) (s : GoString) (h : c ∉ s) :
    Cut s [c] = (s, [], false) := by
  simp [Cut, Index_byte_of_not_mem c s h]

/-- A string does not start with a byte that does not occur in it. -/
theorem HasPrefix_byte_of_not_mem (c : Nat) (s : GoString) (h : c ∉ s) :
    HasPrefix s [c] = false := by
  cases s with
  | nil => simp [HasPrefix, List.isPrefixOf]
  | cons a t =>
    have ha : c ≠ a := fun e => h (e ▸ List.mem_cons_self _ _)
    simp [HasPrefix, List.isPrefixOf, ha]

end strings

namespace url

/-- The byte facts used about an unreserved byte. -/
theorem unreserved_facts (c : Nat) (h : aws.isUnreservedByte c = true) :
    c ≠ 35 ∧ c ≠ 37 ∧ c ≠ 43 ∧ c ≠ 47 ∧ c ≠ 58 ∧ c ≠ 63 ∧ c ≠ 64 ∧ c ≠ 91 ∧ 32 ≤ c ∧ c ≠ 127 := by
  simp only [aws.isUnreservedByte, isAlpha, isDigit, Bool.or_eq_true, Bool.and_eq_true,
    decide_eq_true_eq, beq_iff_eq] at h
  have e1 : 'a'.toNat = 97 := by decide
  have e2 : 'z'.toNat = 122 := by decide
  have e3 : 'A'.toNat = 65 := by decide
  have e4 : 'Z'.toNat = 90 := by decide
  have e5 : '0'.toNat = 48 := by decide
  have e6 : '9'.toNat = 57 := by decide
  have e7 : '-'.toNat = 45 := by decide
  have e8 : '_'.toNat = 95 := by decide
  have e9 : '.'.toNat = 46 := by decide
  have e10 : '~'.toNat = 126 := by decide
  rw [e1, e2, e3, e4, e5, e6, e7, e8, e9, e10] at h
  omega

/-- An unreserved byte needs no escaping in a host. -/
theorem shouldEscape_host_unreserved (c : Nat) (h : aws.isUnreservedByte c = true) :
    shouldEscape c .encodeHost = false := by
  have hm : bytes "-_.~" = ['-'.toNat, '_'.toNat, '.'.toNat, '~'.toNat] := by decide
  simp only [aws.isUnreservedByte, Bool.or_eq_true, beq_iff_eq] at h
  unfold shouldEscape
  rcases h with ((((h | h) | h) | h) | h) | h
  · simp [h]
  · simp [h]
  all_goals (split; rfl; split; rfl; rw [if_pos (by rw [hm, h]; simp)])

/-- The byte facts used about a plain segment byte. -/
theorem plainSegment_facts (c : Nat) (h : aws.isPlainSegmentByte c = true) :
    c ≠ 35 ∧ c ≠ 37 ∧ c ≠ 47 ∧ c ≠ 63 ∧ 32 ≤ c ∧ c ≠ 127 := by
  simp only [aws.isPlainSegmentByte, Bool.and_eq_true, bne_iff_ne, Bool.not_eq_true',
    Bool.or_eq_false_iff, decide_eq_false_iff_not, beq_eq_false_iff_ne] at h
  have e1 : '/'.toNat = 47 := by decide
  have e2 : '?'.toNat = 63 := by decide
  have e3 : '#'.toNat = 35 := by decide
  have e4 : '%'.toNat = 37 := by decide
  have e5 : ' '.toNat = 32 := by decide
  rw [e1, e2, e3, e4, e5] at h
  omega

/-- The first loop of `unescape` accepts a host of unreserved bytes. -/
theorem unescapeCheck_host (s : GoString) (hs : ∀ c ∈ s, aws.isUnreservedByte c = true) :
    ∀ (n : Nat) (hasPlus : Bool), unescapeCheck .encodeHost s n hasPlus = .ok (n, hasPlus) := by
  induction s with
  | nil => intro n hasPlus; rfl
  | cons c t ih =>
    intro n hasPlus
    have hc := hs c (List.mem_cons_self _ _)
    have hf := unreserved_facts c hc
    have he := shouldEscape_host_unreserved c hc
    have e1 : '%'.toNat = 37 := by decide
    have e2 : '+'.toNat = 43 := by decide
    have iht := ih (fun x hx => hs x (List.mem_cons_of_mem _ hx)) n hasPlus
    rw [unescapeCheck.eq_def]
    simp only [e1, e2, if_neg hf.2.1, if_neg hf.2.2.1, he, Bool.false_eq_true,
      and_false, if_false]
    exact iht

/-- The first loop of `unescape` accepts a path without `%` and counts no escape. -/
theorem unescapeCheck_path (s : GoString) (hs : ∀ c ∈ s, c ≠ 37) :
    ∀ n : Nat, unescapeCheck .encodePath s n false = .ok (n, false) := by
  induction s with
  | nil => intro n; rfl
  | cons c t ih =>
    intro n
    have hc := hs c (List.mem_cons_self _ _)
    have e1 : '%'.toNat = 37 := by decide
    have iht := ih (fun x hx => hs x (List.mem_cons_of_mem _ hx)) n
    rw [unescapeCheck.eq_def]
    simp only [e1, if_neg hc]
    split <;> simpa using iht

/-- `unescape` returns a host of unreserved bytes as it is. -/
theorem unescape_host (s : GoString) (hs : ∀ c ∈ s, aws.isUnreservedByte c = true) :
    unescape s .encodeHost = .ok s := by
  simp [unescape, unescapeCheck_host s hs]

/-- `unescape` returns a path without `%` as it is. -/
theorem unescape_path (s : GoString) (hs : ∀ c ∈ s, c ≠ 37) :
    unescape s .encodePath = .ok s := by
  simp [unescape, unescapeCheck_path s hs]

end url

namespace url

/-- No control byte in a list whose bytes are all printable. -/
theorem stringContainsCTLByte_eq_false (s : GoString) (h : ∀ c ∈ s, 32 ≤ c ∧ c ≠ 127) :
    stringContainsCTLByte s = false := by
  have e : ' '.toNat = 32 := by decide
  simp only [stringContainsCTLByte, List.any_eq_false, e, Bool.or_eq_true, decide_eq_true_eq,
    beq_iff_eq, not_or]
  intro c hc
  have := h c hc
  omega

/-- The scheme of a URL that starts with `s3:`. -/
theorem getScheme_s3 (rest : GoString) :
    getScheme (115 :: 51 :: 58 :: rest) = ([115, 51], rest, none) := by
  have h1 : isAlpha 115 = true := by decide
  have h2 : isAlpha 51 = false := by decide
  have h3 : isDigit 51 = true := by decide
  have h4 : isAlpha 58 = false := by decide
  have h5 : isDigit 58 = false := by decide
  have e1 : '+'.toNat = 43 := by decide
  have e2 : '-'.toNat = 45 := by decide
  have e3 : '.'.toNat = 46 := by decide
  have e4 : ':'.toNat = 58 := by decide
  simp [getScheme, getSchemeLoop, h1, h2, h3, h4, h5, e1, e2, e3, e4]

/-- The authority made of a host of unreserved bytes parses to that host, with
no user information. -/
theorem parseAuthority_unreserved (B : GoString) (hB : ∀ c ∈ B, aws.isUnreservedByte c = true) :
    parseAuthority B = .ok (none, B) := by
  have hat : (64 : Nat) ∉ B := fun m => (unreserved_facts 64 (hB 64 m)).2.2.2.2.2.2.1 rfl
  have hcolon : (58 : Nat) ∉ B := fun m => (unreserved_facts 58 (hB 58 m)).2.2.2.2.1 rfl
  have hbr : (91 : Nat) ∉ B := fun m => (unreserved_facts 91 (hB 91 m)).2.2.2.2.2.2.2.1 rfl
  have b1 : bytes "@" = [64] := by decide
  have b2 : bytes ":" = [58] := by decide
  have b3 : bytes "[" = [91] := by decide
  have hhost : parseHost B = .ok B := by
    simp [parseHost, b2, b3, strings.HasPrefix_byte_of_not_mem 91 B hbr,
      strings.LastIndex_byte_of_not_mem 58 B hcolon, unescape_host B hB]
  simp [parseAuthority, b1, strings.LastIndex_byte_of_not_mem 64 B hat, hhost]

end url

namespace url

/-- Parsing `s3://<host>/<segment>/<segment>` for a host of unreserved bytes
and two plain segments gives that host and the path as written. -/
theorem Parse_s3 (B K1 K2 : GoString) (hB : ∀ c ∈ B, aws.isUnreservedByte c = true)
    (h1 : ∀ c ∈ K1, aws.isPlainSegmentByte c = true)
    (h2 : ∀ c ∈ K2, aws.isPlainSegmentByte c = true) :
    Parse (115 :: 51 :: 58 :: 47 :: 47 :: (B ++ 47 :: (K1 ++ 47 :: K2)))
      = .ok { Scheme := [115, 51], Host := B, Path := 47 :: (K1 ++ 47 :: K2) } := by
  -- byte facts about the path and about what follows the scheme
  have hP : ∀ c ∈ 47 :: (K1 ++ 47 :: K2), c ≠ 35 ∧ c ≠ 37 ∧ c ≠ 63 ∧ 32 ≤ c ∧ c ≠ 127 := by
    intro c hc
    simp only [List.mem_cons, List.mem_append] at hc
    rcases hc with rfl | hc | rfl | hc
    · decide
    · have := plainSegment_facts c (h1 c hc); omega
    · decide
    · have := plainSegment_facts c (h2 c hc); omega
  have hW : ∀ c ∈ B ++ 47 :: (K1 ++ 47 :: K2), c ≠ 35 ∧ c ≠ 63 ∧ 32 ≤ c ∧ c ≠ 127 := by
    intro c hc
    rcases List.mem_append.1 hc with hc | hc
    · have := unreserved_facts c (hB c hc); omega
    · have := hP c hc; omega
  have hR : ∀ c ∈ 47 :: 47 :: (B ++ 47 :: (K1 ++ 47 :: K2)),
      c ≠ 35 ∧ c ≠ 63 ∧ 32 ≤ c ∧ c ≠ 127 := by
    intro c hc
    simp only [List.mem_cons] at hc
    rcases hc with rfl | rfl | hc
    · decide
    · decide
    · exact hW c hc
  have hU : ∀ c ∈ 115 :: 51 :: 58 :: 47 :: 47 :: (B ++ 47 :: (K1 ++ 47 :: K2)),
      c ≠ 35 ∧ c ≠ 63 ∧ 32 ≤ c ∧ c ≠ 127 := by
    intro c hc
    simp only [List.mem_cons] at hc
    rcases hc with rfl | rfl | rfl | hc
    · decide
    · decide
    · decide
    · exact hR c (by simpa using hc)
  have hslash : (47 : Nat) ∉ B := fun m => (unreserved_facts 47 (hB 47 m)).2.2.2.1 rfl
  have b1 : bytes "#" = [35] := by decide
  have b2 : bytes "?" = [63] := by decide
  have b3 : bytes "/" = [47] := by decide
  have b4 : bytes "//" = [47, 47] := by decide
  have b5 : bytes "*" = [42] := by decide
  have e1 : '?'.toNat = 63 := by decide
  have hcut : strings.Cut (115 :: 51 :: 58 :: 47 :: 47 :: (B ++ 47 :: (K1 ++ 47 :: K2))) [35]
      = (115 :: 51 :: 58 :: 47 :: 47 :: (B ++ 47 :: (K1 ++ 47 :: K2)), [], false) :=
    strings.Cut_byte_of_not_mem 35 _ (fun m => (hU 35 m).1 rfl)
  have hq : strings.Cut (47 :: 47 :: (B ++ 47 :: (K1 ++ 47 :: K2))) [63]
      = (47 :: 47 :: (B ++ 47 :: (K1 ++ 47 :: K2)), [], false) :=
    strings.Cut_byte_of_not_mem 63 _ (fun m => (hR 63 m).2.1 rfl)
  have hcount : strings.Count (47 :: 47 :: (B ++ 47 :: (K1 ++ 47 :: K2))) 63 = 0 := by
    unfold strings.Count
    exact List.count_eq_zero_of_not_mem (fun m => (hR 63 m).2.1 rfl)
  have hctl := stringContainsCTLByte_eq_false _ (fun c hc => (hU c hc).2.2)
  have hidx := strings.Index_byte_append 47 B (K1 ++ 47 :: K2) hslash
  have hauth := parseAuthority_unreserved B hB
  have hpath := unescape_path (47 :: (K1 ++ 47 :: K2)) (fun c hc => (hP c hc).2.1)
  have hlow : strings.ToLower [115, 51] = [115, 51] := by decide
  have hparse : parse (115 :: 51 :: 58 :: 47 :: 47 :: (B ++ 47 :: (K1 ++ 47 :: K2))) false
      = .ok { Scheme := [115, 51], Host := B, Path := 47 :: (K1 ++ 47 :: K2) } := by
    have hdrop : List.drop 2 (47 :: 47 :: (B ++ 47 :: (K1 ++ 47 :: K2)))
        = B ++ 47 :: (K1 ++ 47 :: K2) := rfl
    have htake : List.take B.length (B ++ 47 :: (K1 ++ 47 :: K2)) = B := by simp
    have hdrop2 : List.drop B.length (B ++ 47 :: (K1 ++ 47 :: K2)) = 47 :: (K1 ++ 47 :: K2) := by
      simp
    have hnonneg : (0 : Int) ≤ (B.length : Int) := Int.ofNat_nonneg _
    unfold parse
    simp only [hctl, getScheme_s3, b2, b3, b4, b5, e1, hq, hcount, hlow]
    simp [strings.HasPrefix, List.isPrefixOf, hidx, hauth, setPath, hpath, hdrop, htake, hdrop2,
      hnonneg]
  simp [Parse, b1, hcut, hparse]

end url

namespace aws

/-- C1 as stated fails: bucket `bucket` and keys `a?b`, `c` contain no `/`,
yet parsing the URL made from them yields the key `/a` (the rest is taken as
the query), not `/a?b/c`; and for the keys `100%`, `c` parsing returns an error. -/
theorem ParseS3URL_CreateS3URL_counterexample :
    '/'.toNat ∉ bytes "bucket" ∧ '/'.toNat ∉ bytes "a?b" ∧ '/'.toNat ∉ bytes "c"
    ∧ '/'.toNat ∉ bytes "100%"
    ∧ ParseS3URL (CreateS3URL (bytes "bucket") [bytes "a?b", bytes "c"])
        = (bytes "bucket", bytes "/a", none)
    ∧ ParseS3URL (CreateS3URL (bytes "bucket") [bytes "a?b", bytes "c"])
        ≠ (strings.Trim (bytes "bucket") (bytes "/"),
            bytes "/" ++ strings.Trim (bytes "a?b") (bytes "/") ++ bytes "/"
              ++ strings.Trim (bytes "c") (bytes "/"), none)
    ∧ (ParseS3URL (CreateS3URL (bytes "bucket") [bytes "100%", bytes "c"])).2.2 ≠ none := by
  refine ⟨?_, ?_, ?_, ?_, ?_, ?_, ?_⟩ <;> decide

/-- C1 amended: for every bucket whose bytes, once leading and trailing `/`
are trimmed, are ASCII letters, digits or `- _ . ~`, and for all keys `key1`,
`key2` that after trimming contain no `/`, no `?`, `#`, `%` and no ASCII control
byte, `ParseS3URL (CreateS3URL bucket key1 key2)` returns no error and yields
the trimmed bucket and the key `/key1/key2` of the trimmed keys. -/
theorem ParseS3URL_CreateS3URL (bucket key1 key2 : GoString)
    (hb : ∀ c ∈ strings.Trim bucket (bytes "/"), isUnreservedByte c = true)
    (h1 : ∀ c ∈ strings.Trim key1 (bytes "/"), isPlainSegmentByte c = true)
    (h2 : ∀ c ∈ strings.Trim key2 (bytes "/"), isPlainSegmentByte c = true) :
    ParseS3URL (CreateS3URL bucket [key1, key2])
      = (strings.Trim bucket (bytes "/"),
          bytes "/" ++ strings.Trim key1 (bytes "/") ++ bytes "/"
            ++ strings.Trim key2 (bytes "/"), none) := by
  have b3 : bytes "/" = [47] := by decide
  have b6 : bytes "s3:/" = [115, 51, 58, 47] := by decide
  rw [b3] at hb h1 h2 ⊢
  have hurl : CreateS3URL bucket [key1, key2]
      = 115 :: 51 :: 58 :: 47 :: 47 :: (strings.Trim bucket [47]
          ++ 47 :: (strings.Trim key1 [47] ++ 47 :: strings.Trim key2 [47])) := by
    simp [CreateS3URL, strings.Join, b3, b6]
  rw [hurl]
  simp [ParseS3URL, url.Parse_s3 _ _ _ hb h1 h2]

/-- Witness for C1: a bucket and keys written with surrounding slashes. -/
theorem ParseS3URL_CreateS3URL_witness :
    ParseS3URL (CreateS3URL (bytes "/osde2e-bucket/") [bytes "/logs/", bytes "junit report.xml"])
      = (bytes "osde2e-bucket", bytes "/logs/junit report.xml", none) :=
  ParseS3URL_CreateS3URL (bytes "/osde2e-bucket/") (bytes "/logs/") (bytes "junit report.xml")
    (by decide) (by decide) (by decide)

/-- C6, the code at the failing input: for the one bucket `osde2e-abc`, old
enough and not a dry run, listing its objects fails; the error is never looked
at, `DeleteObjects` is issued with no key at all and, as it reports no error,
`DeleteBucket` follows: the bucket is deleted without one of its objects
having been deleted before. -/
theorem CleanupS3Buckets_ignores_listing_error :
    (listingFailsEnv.ListObjects [Call.ListBuckets] (bytes "osde2e-abc")).2 ≠ none
    ∧ (CleanupS3Buckets plainSessionEnv listingFailsEnv (bytes "osde2e-") {} 10 false).2.1.calls
        = [Call.ListBuckets,
           Call.ListObjects (bytes "osde2e-abc"),
           Call.DeleteObjects (bytes "osde2e-abc") [],
           Call.DeleteBucket (bytes "osde2e-abc")]
    ∧ (CleanupS3Buckets plainSessionEnv listingFailsEnv (bytes "osde2e-") {} 10 false).2.2
        = none := by
  refine ⟨by decide, by decide, by decide⟩

/-- The loop of the clean-up only adds calls, and what it adds does not start
with a `DeleteBucket`. -/
theorem CleanupS3Buckets.loop_extends (w : S3Env) (rolesubstr : GoString)
    (olderthan : time.Duration) (dryrun : Bool) (buckets : List Bucket) :
    ∀ st : CleanupState, ∃ ext : List Call,
      (CleanupS3Buckets.loop w rolesubstr olderthan dryrun buckets st).calls = st.calls ++ ext
      ∧ ∀ (x : GoString) (rest : List Call), ext ≠ Call.DeleteBucket x :: rest := by
  induction buckets with
  | nil => intro st; exact ⟨[], by simp [CleanupS3Buckets.loop], by simp⟩
  | cons bucket buckets ih =>
    intro st
    simp only [CleanupS3Buckets.loop]
    split
    · split
      · split
        · split
          · obtain ⟨ext, h1, _⟩ := ih
              { calls := st.calls ++ [Call.ListObjects bucket.Name]
                  ++ [Call.DeleteObjects bucket.Name
                        ((w.ListObjects st.calls bucket.Name).1.map (·.Key))]
                clock := st.clock + 1 }
            exact ⟨_, by rw [h1]; simp only [List.append_assoc]; rfl, by simp⟩
          · split <;>
            · obtain ⟨ext, h1, _⟩ := ih
                { calls := st.calls ++ [Call.ListObjects bucket.Name]
                    ++ [Call.DeleteObjects bucket.Name
                          ((w.ListObjects st.calls bucket.Name).1.map (·.Key))]
                    ++ [Call.DeleteBucket bucket.Name]
                  clock := st.clock + 1 }
              exact ⟨_, by rw [h1]; simp only [List.append_assoc]; rfl, by simp⟩
        · exact ih _
      · exact ih _
    · exact ih _

/-- Outside a dry run the loop of the clean-up serves every bucket of its list
whose name matches and which is old at every reading of the clock: it lists
the objects, issues `DeleteObjects` with the keys returned and goes on with
`DeleteBucket` exactly when `DeleteObjects` reported no error. -/
theorem CleanupS3Buckets.loop_live (w : S3Env) (rolesubstr : GoString)
    (olderthan : time.Duration) (b : Bucket)
    (hname : (strings.Contains b.Name rolesubstr || strings.Contains b.Name velerosubstr) = true)
    (hold : ∀ k : Nat, time.Sub (w.Now k) b.CreationDate > olderthan) (buckets : List Bucket) :
    ∀ st : CleanupState, b ∈ buckets →
      ∃ pre post : List Call,
        (CleanupS3Buckets.loop w rolesubstr olderthan false buckets st).calls
          = pre ++ [Call.ListObjects b.Name,
              Call.DeleteObjects b.Name ((w.ListObjects pre b.Name).1.map (·.Key))] ++ post
        ∧ (w.DeleteObjects (pre ++ [Call.ListObjects b.Name]) b.Name
              ((w.ListObjects pre b.Name).1.map (·.Key)) = none ↔
            ∃ rest : List Call, post = Call.DeleteBucket b.Name :: rest) := by
  induction buckets with
  | nil => intro st hb; simp at hb
  | cons bucket buckets ih =>
    intro st hb
    rcases List.mem_cons.1 hb with rfl | hmem
    · simp only [CleanupS3Buckets.loop, hname, hold st.clock, if_true, Bool.not_false]
      split
      · rename_i err herr
        obtain ⟨ext, h1, h2⟩ := CleanupS3Buckets.loop_extends w rolesubstr olderthan false buckets
          { calls := st.calls ++ [Call.ListObjects b.Name]
              ++ [Call.DeleteObjects b.Name ((w.ListObjects st.calls b.Name).1.map (·.Key))]
            clock := st.clock + 1 }
        refine ⟨st.calls, ext, by rw [h1]; simp, ?_⟩
        constructor
        · intro hnone
          rw [hnone] at herr
          exact absurd herr (by simp)
        · rintro ⟨rest, hrest⟩
          exact absurd hrest (h2 _ _)
      · rename_i herr
        have hext : ∃ ext : List Call,
            (match w.DeleteBucket
                (st.calls ++ [Call.ListObjects b.Name]
                  ++ [Call.DeleteObjects b.Name ((w.ListObjects st.calls b.Name).1.map (fun (o : Object) => o.Key))])
                b.Name with
              | some _ => CleanupS3Buckets.loop w rolesubstr olderthan false buckets
                  { calls := st.calls ++ [Call.ListObjects b.Name]
                      ++ [Call.DeleteObjects b.Name
                            ((w.ListObjects st.calls b.Name).1.map (fun (o : Object) => o.Key))]
                      ++ [Call.DeleteBucket b.Name]
                    clock := st.clock + 1 }
              | none => CleanupS3Buckets.loop w rolesubstr olderthan false buckets
                  { calls := st.calls ++ [Call.ListObjects b.Name]
                      ++ [Call.DeleteObjects b.Name
                            ((w.ListObjects st.calls b.Name).1.map (fun (o : Object) => o.Key))]
                      ++ [Call.DeleteBucket b.Name]
                    clock := st.clock + 1 }).calls
              = st.calls ++ [Call.ListObjects b.Name]
                  ++ [Call.DeleteObjects b.Name ((w.ListObjects st.calls b.Name).1.map (fun (o : Object) => o.Key))]
                  ++ [Call.DeleteBucket b.Name] ++ ext := by
          split <;>
          · obtain ⟨ext, h1, _⟩ := CleanupS3Buckets.loop_extends w rolesubstr olderthan false
              buckets
              { calls := st.calls ++ [Call.ListObjects b.Name]
                  ++ [Call.DeleteObjects b.Name ((w.ListObjects st.calls b.Name).1.map (·.Key))]
                  ++ [Call.DeleteBucket b.Name]
                clock := st.clock + 1 }
            exact ⟨ext, h1⟩
        obtain ⟨ext, h1⟩ := hext
        refine ⟨st.calls, Call.DeleteBucket b.Name :: ext, by rw [h1]; simp, ?_⟩
        exact ⟨fun _ => ⟨ext, rfl⟩, fun _ => herr⟩
    · simp only [CleanupS3Buckets.loop]
      split
      · split
        · simp only [Bool.not_false, if_true]
          split
          · exact ih _ hmem
          · split <;> exact ih _ hmem
        · exact ih _ hmem
      · exact ih _ hmem

/-- Outside a dry run `CleanupS3Buckets` serves every bucket that `ListBuckets`
returned without error, whose name contains `rolesubstr` or `managed-velero`
and which is older than `olderthan` at every reading of the clock: it issues
`ListObjects` for it, then `DeleteObjects` with the keys that listing returned,
and directly after that `DeleteBucket` exactly when `DeleteObjects` reported no
error. -/
theorem CleanupS3Buckets_deletes_each_old_matching (env : SessionEnv) (w : S3Env)
    (rolesubstr : GoString) (sess : ccsAwsSession) (olderthan : time.Duration) (b : Bucket)
    (hlist : (w.ListBuckets []).2 = none) (hb : b ∈ (w.ListBuckets []).1)
    (hname : rolesubstr <:+: b.Name ∨ bytes "managed-velero" <:+: b.Name)
    (hold : ∀ k : Nat, time.Sub (w.Now k) b.CreationDate > olderthan) :
    ∃ pre post : List Call,
      (CleanupS3Buckets env w rolesubstr sess olderthan false).2.1.calls
        = pre ++ [Call.ListObjects b.Name,
            Call.DeleteObjects b.Name ((w.ListObjects pre b.Name).1.map (·.Key))] ++ post
      ∧ (w.DeleteObjects (pre ++ [Call.ListObjects b.Name]) b.Name
            ((w.ListObjects pre b.Name).1.map (·.Key)) = none ↔
          ∃ rest : List Call, post = Call.DeleteBucket b.Name :: rest) := by
  have hname2 : (strings.Contains b.Name rolesubstr
      || strings.Contains b.Name velerosubstr) = true := by
    rw [Bool.or_eq_true]
    exact hname.imp (strings.Contains_iff _ _).2 (strings.Contains_iff _ _).2
  unfold CleanupS3Buckets
  rcases hs : GetAWSSessions env sess with ⟨s1, e, effs⟩
  have he : e = none := by
    have : (GetAWSSessions env sess).2.1 = none := rfl
    rw [hs] at this
    exact this
  subst he
  rcases hl : w.ListBuckets [] with ⟨bs, e⟩
  rw [hl] at hlist hb
  simp only at hlist hb
  subst hlist
  exact CleanupS3Buckets.loop_live w rolesubstr olderthan b hname2 hold bs
    ⟨[Call.ListBuckets], 0⟩ hb

/-- The clean-up of a world with the old bucket `osde2e-abc` (two objects) and
the bucket `keep-me`: the objects of `osde2e-abc` are listed and deleted, then
the bucket. -/
theorem CleanupS3Buckets_deletes_each_old_matching_witness :
    ∃ pre post : List Call,
      (CleanupS3Buckets plainSessionEnv twoBucketsEnv (bytes "osde2e-") {} 10 false).2.1.calls
        = pre ++ [Call.ListObjects (bytes "osde2e-abc"),
            Call.DeleteObjects (bytes "osde2e-abc")
              ((twoBucketsEnv.ListObjects pre (bytes "osde2e-abc")).1.map (·.Key))] ++ post
      ∧ (twoBucketsEnv.DeleteObjects (pre ++ [Call.ListObjects (bytes "osde2e-abc")])
            (bytes "osde2e-abc")
            ((twoBucketsEnv.ListObjects pre (bytes "osde2e-abc")).1.map (·.Key)) = none ↔
          ∃ rest : List Call, post = Call.DeleteBucket (bytes "osde2e-abc") :: rest) :=
  CleanupS3Buckets_deletes_each_old_matching plainSessionEnv twoBucketsEnv (bytes "osde2e-") {} 10
    { Name := bytes "osde2e-abc", CreationDate := 0 } rfl (by decide)
    (Or.inl ((strings.Contains_iff _ _).1 (by decide))) (fun _ => by show time.Sub 100 0 > 10; decide)

end aws
